import Mathlib

/-!
Verification of the bosun alerting scheduler core (`cmd/bosun/sched/sched.go`
and `cmd/bosun/database/incident_data.go`).

The Go code is shallowly embedded: `time.Time` becomes `Nat` (`Before` is `<`,
`After` is `>`, `Equal` is `=`), Go maps become association lists (one fixed
list order stands for one of Go's nondeterministic map-iteration orders;
theorems that quantify over all lists therefore cover all iteration orders),
and the `map[expr.AlertKey]*State` pointer structure is modelled by a `heap`
of `State` values addressed by `Nat` references, so that in-place mutation
through a pointer and `delete` from the map are both observable, exactly as
in Go.
-/

namespace Bosun

/-- Model of `time.Time`: an abstract instant. `t.Before(u)` is `t < u`,
`t.After(u)` is `u < t`, `t.Equal(u)` is `t = u`, the zero time is `0`. -/
abbrev Time := Nat

/-- Model of `expr.AlertKey` (a string of the form `name{tags}`). -/
abbrev AlertKey := String

/-- `type Status int` with `StNone < StNormal < StWarning < StCritical < StUnknown`
(consecutive `iota` values). -/
inductive Status where
  | StNone
  | StNormal
  | StWarning
  | StCritical
  | StUnknown
  deriving DecidableEq, Repr, Inhabited

/-- The `iota` integer value of a `Status`. -/
def Status.toNat : Status → Nat
  | .StNone => 0
  | .StNormal => 1
  | .StWarning => 2
  | .StCritical => 3
  | .StUnknown => 4

instance : LT Status := ⟨fun a b => a.toNat < b.toNat⟩

instance (a b : Status) : Decidable (a < b) :=
  inferInstanceAs (Decidable (a.toNat < b.toNat))

/-- Go's `>` on the `Status` integers, as used in the source (`Status > StNormal`). -/
def Status.gtB (a b : Status) : Bool := Nat.blt b.toNat a.toNat

/-- `type ActionType int` (`ActionNone`, `ActionAcknowledge`, `ActionClose`,
`ActionForget`). -/
inductive ActionType where
  | ActionNone
  | ActionAcknowledge
  | ActionClose
  | ActionForget
  deriving DecidableEq, Repr, Inhabited

/-- `ActionType.String()` from the source. -/
def ActionType.String : ActionType → String
  | .ActionAcknowledge => "Acknowledged"
  | .ActionClose => "Closed"
  | .ActionForget => "Forgotten"
  | .ActionNone => "none"

/-- `type Result struct { *expr.Result; Expr string }`. The embedded
`expr.Result` is external to the sources and opaque to every claim; only the
`Expr` text is carried. -/
structure Result where
  Expr : String
  deriving DecidableEq, Repr, Inhabited

/-- `type Event struct` from the source: warn/crit sub-results, a status, an
evaluation time, the `Unevaluated` flag and the incident link (`0` if unlinked). -/
structure Event where
  Warn : Option Result := none
  Crit : Option Result := none
  Status : Status := .StNone
  Time : Time := 0
  Unevaluated : Bool := false
  IncidentId : Nat := 0
  deriving DecidableEq, Repr, Inhabited

/-- The zero `Event` value returned by `State.Last` on an empty history. -/
def zeroEvent : Event := {}

/-- `type Action struct { User, Message string; Time time.Time; Type ActionType }`.
The Go field `Type` is a Lean keyword and is rendered `Type_`. -/
structure Action where
  User : String
  Message : String
  Time : Time
  Type_ : ActionType
  deriving DecidableEq, Repr, Inhabited

/-- `opentsdb.TagSet` (`map[string]string`), as an association list. -/
abbrev TagSet := List (String × String)

/-- `type State struct` from the source. Slices become lists; the `Group` map
becomes an association list; `EmailBody`/`EmailSubject` byte slices become
strings. -/
structure State where
  Result : Option Result := none
  History : List Event := []
  Actions : List Action := []
  Touched : Time := 0
  Alert : String := ""
  Tags : String := ""
  Group : TagSet := []
  Subject : String := ""
  Body : String := ""
  EmailBody : String := ""
  EmailSubject : String := ""
  Attachments : List String := []
  NeedAck : Bool := false
  Open : Bool := false
  Forgotten : Bool := false
  Unevaluated : Bool := false
  LastLogTime : Time := 0
  deriving DecidableEq, Repr, Inhabited

/-- `State.Last`: the last history event, or the zero `Event` when the history
is empty. -/
def State.Last (s : State) : Event :=
  s.History.getLastD zeroEvent

/-- `State.Status()`: `s.Last().Status`. -/
def State.Status (s : State) : Bosun.Status := s.Last.Status

/-- `State.AbnormalEvent`: most recent event with status strictly above
`StNormal`, scanning the history from the end; `none` if there is none. -/
def State.AbnormalEvent (s : State) : Option Event :=
  s.History.reverse.find? (fun ev => Status.gtB ev.Status .StNormal)

/-- `State.AbnormalStatus`: status of the most recent abnormal event, `StNone`
if there is none. -/
def State.AbnormalStatus (s : State) : Bosun.Status :=
  match s.AbnormalEvent with
  | some ev => ev.Status
  | none => .StNone

/-- `State.IsActive()`: `s.Status() > StNormal`. -/
def State.IsActive (s : State) : Bool := Status.gtB s.Status .StNormal

/-- `State.Action(user, message, t, timestamp)`: append an audit record. -/
def State.Action (s : State) (user message : String) (t : ActionType)
    (timestamp : Time) : State :=
  { s with Actions := s.Actions ++ [⟨user, message, timestamp, t⟩] }

/-- `State.Append(event)`: append the event when the history is empty or its
status differs from the latest status; return the previous status together
with the updated state. -/
def State.Append (s : State) (event : Event) : Bosun.Status × State :=
  let last := s.Last
  if s.History.length = 0 || !(last.Status = event.Status : Bool) then
    (last.Status, { s with History := s.History ++ [event] })
  else
    (last.Status, s)

/-- `State.Copy()`: shares `History`, `Actions` and the `Result` pointer,
deep-copies the `Group` tag map (value-identical), copies every scalar. At
this value level the copy is field-for-field identical; the reference-level
aliasing consequences are modelled separately below (`RState`). -/
def State.Copy (s : State) : State :=
  { Result := s.Result
    History := s.History
    Actions := s.Actions
    Touched := s.Touched
    Alert := s.Alert
    Tags := s.Tags
    Group := s.Group
    Subject := s.Subject
    Body := s.Body
    EmailBody := s.EmailBody
    EmailSubject := s.EmailSubject
    Attachments := s.Attachments
    NeedAck := s.NeedAck
    Open := s.Open
    Forgotten := s.Forgotten
    Unevaluated := s.Unevaluated
    LastLogTime := s.LastLogTime }

/-- `type Incident struct { Id uint64; Start time.Time; End *time.Time; AlertKey }`. -/
structure Incident where
  Id : Nat := 0
  Start : Time := 0
  End : Option Time := none
  AlertKey : AlertKey := ""
  deriving DecidableEq, Repr, Inhabited

/-- Go-map deletion on an association list: remove every binding of `k`. -/
def eraseKey {α β : Type} [BEq α] (k : α) (l : List (α × β)) : List (α × β) :=
  l.filter (fun p => !(p.1 == k))

/-- Go-map assignment on an association list: overwrite the binding of `k`
when present, otherwise add it. -/
def setKey {α β : Type} [DecidableEq α] (k : α) (v : β) : List (α × β) → List (α × β)
  | [] => [(k, v)]
  | p :: tl => if p.1 = k then (k, v) :: tl else p :: setKey k v tl

/-- A pending-notification map value (`map[string]time.Time`); opaque to every
claim, only deleted wholesale by `ack()`. -/
abbrev NotifVal := List (String × Time)

/-- The scheduler fields the claims touch. `status` maps alert keys to
references into `heap`, which holds the pointed-to `State` objects: writing
through a reference is visible to every reader of the map, as with Go's
`map[expr.AlertKey]*State`. -/
structure Schedule where
  status : List (AlertKey × Nat) := []
  heap : List State := []
  Notifications : List (AlertKey × NotifVal) := []
  Incidents : List (Nat × Incident) := []
  maxIncidentId : Nat := 0
  deriving DecidableEq, Repr, Inhabited

/-- Dereference an alert key to its live `State` (nil pointers / dangling
references read as absent, which is unreachable in the Go code). -/
def Schedule.getState (s : Schedule) (ak : AlertKey) : Option (Nat × State) :=
  (s.status.lookup ak).bind (fun r => (s.heap[r]?).map (fun st => (r, st)))

/-- `Schedule.Action(user, message, t, ak)` from the source, executed at the
instant `now` (`time.Now().UTC()`). Returns the error (`none` on success)
together with the resulting scheduler state; mutations performed before an
error return persist, exactly as the in-place pointer writes do in Go. -/
def Schedule.Action (s : Schedule) (user message : String) (t : ActionType)
    (ak : AlertKey) (now : Time) : Option String × Schedule :=
  match s.getState ak with
  | none => (some ("no such alert key: " ++ ak), s)
  | some (r, st) =>
    -- ack := func() { delete(s.Notifications, ak); st.NeedAck = false }
    let isUnknown := st.AbnormalStatus = Status.StUnknown
    match t with
    | .ActionAcknowledge =>
      if !st.NeedAck then (some "alert already acknowledged", s)
      else if !st.Open then (some "cannot acknowledge closed alert", s)
      else
        let st1 := { st with NeedAck := false }
        let s1 := { s with Notifications := eraseKey ak s.Notifications,
                           heap := s.heap.set r st1 }
        let st2 := st1.Action user message t now
        (none, { s1 with heap := s1.heap.set r st2 })
    | .ActionClose =>
      let st1 := if st.NeedAck then { st with NeedAck := false } else st
      let s1 := if st.NeedAck then
          { s with Notifications := eraseKey ak s.Notifications,
                   heap := s.heap.set r st1 }
        else s
      if st1.IsActive then (some "cannot close active alert", s1)
      else
        let st2 := { st1 with Open := false }
        let s2 := { s1 with heap := s1.heap.set r st2 }
        let last := st2.Last
        let s3 :=
          if last.IncidentId ≠ 0 then
            match s2.Incidents.lookup last.IncidentId with
            | some incident =>
              { s2 with Incidents :=
                  setKey last.IncidentId { incident with End := some now } s2.Incidents }
            | none => s2
          else s2
        let st3 := st2.Action user message t now
        (none, { s3 with heap := s3.heap.set r st3 })
    | .ActionForget =>
      if !isUnknown then (some "can only forget unknowns", s)
      else
        let st1 := if st.NeedAck then { st with NeedAck := false } else st
        let s1 := if st.NeedAck then
            { s with Notifications := eraseKey ak s.Notifications,
                     heap := s.heap.set r st1 }
          else s
        let st2 := { st1 with Open := false, Forgotten := true }
        let s2 := { s1 with heap := s1.heap.set r st2,
                            status := eraseKey ak s1.status }
        -- the trailing st.Action(...) append lands on the object just removed
        -- from the map, still reachable through the heap cell
        let st3 := st2.Action user message t now
        (none, { s2 with heap := s2.heap.set r st3 })
    | .ActionNone => (some ("unknown action type: " ++ t.String), s)

/-- Modelled from the spec: `Schedule.GetStatus` (called by
`GetIncidentEvents` but absent from the provided sources) returns the live
`State` stored for the alert key. -/
def Schedule.GetStatus (s : Schedule) (ak : AlertKey) : Option State :=
  (s.getState ak).map Prod.snd

/-- The event-collection scan of `GetIncidentEvents`: collect events whose
`IncidentId` matches, stopping at the first non-matching event after a match. -/
def collectRun (id : Nat) : List Event → Bool → List Event
  | [], _ => []
  | e :: rest, found =>
    if e.IncidentId = id then e :: collectRun id rest true
    else if found then []
    else collectRun id rest found

/-- The action filter of `GetIncidentEvents`:
`a.Time.After(incident.Start) && (incident.End == nil || a.Time.Before(*incident.End) || a.Time.Equal(*incident.End))`. -/
def actionInIncident (incident : Incident) (a : Action) : Bool :=
  decide (incident.Start < a.Time) &&
    (match incident.End with
     | none => true
     | some te => decide (a.Time < te) || decide (a.Time = te))

/-- `Schedule.GetIncidentEvents(id)` from the source. -/
def Schedule.GetIncidentEvents (s : Schedule) (id : Nat) :
    Except String (Incident × List Event × List Bosun.Action) :=
  match s.Incidents.lookup id with
  | none => .error ("incident " ++ toString id ++ " not found")
  | some incident =>
    match s.GetStatus incident.AlertKey with
    | none => .ok (incident, [], [])
    | some state =>
      let list := collectRun id state.History false
      let actions := state.Actions.filter (actionInIncident incident)
      .ok (incident, list, actions)

/-- Lexicographic byte order on strings (Go's `<` on `string`; UTF-8 byte
order agrees with code-point order). -/
def listLtB : List Char → List Char → Bool
  | [], [] => false
  | [], _ :: _ => true
  | _ :: _, [] => false
  | a :: as, b :: bs =>
    if a.val < b.val then true
    else if b.val < a.val then false
    else listLtB as bs

/-- Go string comparison `a < b`. -/
def strLtB (a b : String) : Bool := listLtB a.data b.data

/-- `incidentList.Less(a, b)` from the source:
`if i[a].Start.Before(i[b].Start) { return true }; return i[a].AlertKey < i[b].AlertKey`. -/
def incidentLess (a b : Incident) : Bool :=
  if a.Start < b.Start then true else strLtB a.AlertKey b.AlertKey

/-- Swap two array cells, identity when either index is out of bounds. -/
def aswap {α : Type} (a : Array α) (i j : Nat) : Array α :=
  match a.get? i, a.get? j with
  | some x, some y => (a.setD i y).setD j x
  | _, _ => a

/-- The inner loop of the standard library's `insertionSort`: sift the element
at index `j+1` down while it is `Less` than its left neighbour. -/
def insertStep {α : Type} (less : α → α → Bool) (a : Array α) : Nat → Array α
  | 0 => a
  | j + 1 =>
    match a.get? (j + 1), a.get? j with
    | some x, some y =>
      if less x y then insertStep less (aswap a (j + 1) j) j else a
    | _, _ => a

/-- `insertionSort(data, 0, n)` from Go's `sort` package. -/
def goInsertionSort {α : Type} (less : α → α → Bool) (a : Array α) : Array α :=
  (List.range a.size).foldl (fun arr i => insertStep less arr i) a

/-- The gap-6 Shell pass `quickSort` runs before `insertionSort` on short
slices. -/
def goShellPass {α : Type} (less : α → α → Bool) (a : Array α) : Array α :=
  (List.range a.size).foldl
    (fun arr i =>
      if 6 ≤ i then
        match arr.get? i, arr.get? (i - 6) with
        | some x, some y => if less x y then aswap arr i (i - 6) else arr
        | _, _ => arr
      else arr)
    a

/-- `sort.Sort` from the Go standard library, exactly as it behaves on slices
of at most 12 elements (on those, `quickSort` is the gap-6 Shell pass followed
by `insertionSort`; longer slices take the quicksort path, not modelled — the
claims evaluate this on short slices only). -/
def goSort {α : Type} (less : α → α → Bool) (l : List α) : List α :=
  (goInsertionSort less (goShellPass less l.toArray)).toList

/-- Phase 1 of `createHistoricIncidents` for one state: sweep the history left
to right carrying the current incident; at each event either stay inside the
open incident, or (skipping `StNormal` events) open a new incident whose `End`
is the first `Close` action strictly after the event, recording the event
index. Incidents are returned in creation order, paired with their start
index. -/
def sweep (ak : AlertKey) (actions : List Action) :
    List Event → Nat → Option Incident → List (Incident × Nat)
  | [], _, _ => []
  | ev :: rest, i, some cur =>
    if cur.End = none || decide (ev.Time < cur.End.getD 0) then
      sweep ak actions rest (i + 1) (some cur)
    else
      -- incident ended before this event: fall through with current = nil
      if ev.Status = Status.StNormal then
        sweep ak actions rest (i + 1) none
      else
        let endT := (actions.find? (fun a =>
          a.Type_ = ActionType.ActionClose && decide (ev.Time < a.Time))).map (·.Time)
        let inc : Incident := { AlertKey := ak, Start := ev.Time, End := endT, Id := 0 }
        (inc, i) :: sweep ak actions rest (i + 1) (some inc)
  | ev :: rest, i, none =>
    if ev.Status = Status.StNormal then
      sweep ak actions rest (i + 1) none
    else
      let endT := (actions.find? (fun a =>
        a.Type_ = ActionType.ActionClose && decide (ev.Time < a.Time))).map (·.Time)
      let inc : Incident := { AlertKey := ak, Start := ev.Time, End := endT, Id := 0 }
      (inc, i) :: sweep ak actions rest (i + 1) (some inc)

/-- Phase 3 stamping of `createHistoricIncidents`: from the start index, set
`ev.IncidentId := id` while `incident.End == nil || ev.Time.Before(*incident.End)`,
breaking at the first event at or past `End`. -/
def stampFrom (id : Nat) (endT : Option Time) : List Event → List Event
  | [] => []
  | ev :: rest =>
    match endT with
    | none => { ev with IncidentId := id } :: stampFrom id none rest
    | some te =>
      if ev.Time < te then { ev with IncidentId := id } :: stampFrom id (some te) rest
      else ev :: rest

/-- `Schedule.createHistoricIncidents` from the source: clear the incident
registry, sweep every state's history into unnumbered incidents, sort them
with `incidentList.Less`, then assign ids from `maxIncidentId` in sorted order
and stamp each incident's events from its recorded start index. The `status`
list order stands for the Go map iteration order of the run. -/
def Schedule.createHistoricIncidents (s : Schedule) : Schedule :=
  let pairs := s.status.foldl
    (fun acc (p : AlertKey × Nat) =>
      match s.heap[p.2]? with
      | none => acc
      | some st => acc ++ sweep p.1 st.Actions st.History 0 none)
    []
  let sorted := goSort (fun (a b : Incident × Nat) => incidentLess a.1 b.1) pairs
  let s0 := { s with Incidents := [] }
  sorted.foldl
    (fun acc (p : Incident × Nat) =>
      let id := acc.maxIncidentId + 1
      let inc := { p.1 with Id := id }
      let acc1 := { acc with maxIncidentId := id }
      let acc2 :=
        match acc1.status.lookup inc.AlertKey with
        | none => acc1
        | some r =>
          match acc1.heap[r]? with
          | none => acc1
          | some st =>
            let hist1 := st.History.take p.2 ++ stampFrom id inc.End (st.History.drop p.2)
            { acc1 with heap := acc1.heap.set r ({ st with History := hist1 }) }
      { acc2 with Incidents := setKey id inc acc2.Incidents })
    s0

/-! ### Data-access layer (`cmd/bosun/database/incident_data.go`) -/

/-- A value in the key/value backend: the `maxIncidentId` integer counter or
an opaque serialized incident. -/
inductive KVVal where
  | int : Int → KVVal
  | inc : Incident → KVVal
  deriving DecidableEq, Repr

/-- The key/value backend state. -/
abbrev KV := List (String × KVVal)

/-- `incidentKey(id)` from the source: `fmt.Sprint("incident:%d", id)`.
`fmt.Sprint` does not interpret format verbs and inserts no separator after a
string operand, so the result is the literal text `incident:%d` followed by
the decimal id. -/
def incidentKey (id : Nat) : String :=
  "incident:%d" ++ toString id

/-- Redis `INCR`: increment the integer at `key` (missing or non-integer reads
as 0) and return the new value. -/
def kvIncr (kv : KV) (key : String) : Int × KV :=
  let cur : Int :=
    match kv.lookup key with
    | some (.int n) => n
    | _ => 0
  (cur + 1, setKey key (.int (cur + 1)) kv)

/-- `dataAccess.CreateIncident(ak, start)` from the source: `INCR` the
`maxIncidentId` counter for the id, build the incident — with
`Start: time.Now()`, the `start` argument is ignored by the code — and `SET`
it under `incidentKey(id)`. -/
def CreateIncident (kv : KV) (ak : AlertKey) (start now : Time) :
    Incident × KV :=
  let (id, kv1) := kvIncr kv "maxIncidentId"
  let incident : Incident := { Id := id.toNat, Start := now, AlertKey := ak }
  (incident, setKey (incidentKey id.toNat) (.inc incident) kv1)

/-! ### Alert keys and the grouping engine -/

/-- Insert a tag pair into a key-sorted list (insertion step). -/
def insertTag (kv : String × String) : List (String × String) → List (String × String)
  | [] => [kv]
  | x :: xs => if strLtB x.1 kv.1 then x :: insertTag kv xs else kv :: x :: xs

/-- Modelled from the spec: the canonical tag ordering of an alert key's tag
set (`opentsdb.TagSet.String`, outside the provided sources) — tags sorted by
key. -/
def canonicalTags (g : TagSet) : List (String × String) :=
  g.foldr insertTag []

/-- Modelled from the spec: `expr.NewAlertKey` / `State.AlertKey()` (the
`expr` package is outside the provided sources). An alert key is the opaque
string `<alert-name>{<tag-set>}` with the tag set in canonical order. -/
def alertKey (s : State) : AlertKey :=
  s.Alert ++ "\x7b" ++
    String.intercalate "," ((canonicalTags s.Group).map (fun kv => kv.1 ++ "=" ++ kv.2)) ++
    "\x7d"

/-- Go map read with zero value: `s.Group[k]` is `""` when `k` is absent. -/
def tagGet (g : TagSet) (k : String) : String :=
  (g.lookup k).getD ""

/-- One counting entry per distinct tag pair seen among the yet-unassigned
states (`counts[Pair{k, v}]++`). -/
def bumpPair (p : String × String) :
    List ((String × String) × Nat) → List ((String × String) × Nat)
  | [] => [(p, 1)]
  | q :: tl => if q.1 = p then (q.1, q.2 + 1) :: tl else q :: bumpPair p tl

/-- The `counts` map of one `GroupSets` iteration: every tag pair of every
yet-unassigned state, with its frequency. -/
def countPairs (unseen : List State) : List ((String × String) × Nat) :=
  unseen.foldl (fun acc s => s.Group.foldl (fun acc2 kv => bumpPair kv acc2) acc) []

/-- The max-selection loop of `GroupSets` (`max := 0; if c > max { max, pair := c, p }`). -/
def maxPair (cs : List ((String × String) × Nat)) : (String × String) × Nat :=
  cs.foldl (fun best c => if best.2 < c.2 then c else best) (("", ""), 0)

/-- The rendered name of a common-tag group: `fmt.Sprintf("{%s=%s}", k, v)`. -/
def pairName (p : String × String) : String :=
  "\x7b" ++ p.1 ++ "=" ++ p.2 ++ "\x7d"

/-- The main loop of `GroupSets`: repeatedly pick the most common tag pair
among yet-unassigned states; stop when no pairs remain or the best count is
below `minGroup`; otherwise move every unassigned state carrying the pair
into a new group. `fuel` bounds the iteration count (the caller passes enough
for the loop to reach its `break` conditions, see `gsLoop_spec` below). -/
def gsLoop (minGroup : Int) : Nat → List State → List (String × List AlertKey) →
    List State × List (String × List AlertKey)
  | 0, unseen, groups => (unseen, groups)
  | fuel + 1, unseen, groups =>
    let cs := countPairs unseen
    if cs.isEmpty then (unseen, groups)
    else
      let best := maxPair cs
      if (best.2 : Int) < minGroup then (unseen, groups)
      else
        let grp := unseen.filter (fun s => tagGet s.Group best.1.1 == best.1.2)
        let rest := unseen.filter (fun s => !(tagGet s.Group best.1.1 == best.1.2))
        let groups1 :=
          if grp.length > 0 then setKey (pairName best.1) (grp.map alertKey) groups
          else groups
        gsLoop minGroup fuel rest groups1

/-- Append to a map-of-lists entry (`groupedByAlert[s.Alert] = append(..., ak)`). -/
def bumpList (k : String) (v : AlertKey) :
    List (String × List AlertKey) → List (String × List AlertKey)
  | [] => [(k, [v])]
  | q :: tl => if q.1 = k then (q.1, q.2 ++ [v]) :: tl else q :: bumpList k v tl

/-- The `groupedByAlert` map of `GroupSets`: remaining states' alert keys,
bucketed by alert name. -/
def groupedByAlert (unseen : List State) : List (String × List AlertKey) :=
  unseen.foldl (fun acc s => bumpList s.Alert (alertKey s) acc) []

/-- The tail of `GroupSets` after the common-tag loop: bucket the remaining
states by alert name, emit buckets of at least `minGroup` under the alert
name, and the rest as singleton groups keyed by alert key. -/
def phase34 (unseen : List State) (groups : List (String × List AlertKey))
    (minGroup : Int) : List (String × List AlertKey) :=
  let gba := groupedByAlert unseen
  let groups2 := gba.foldl
    (fun acc e => if minGroup ≤ (e.2.length : Int) then setKey e.1 e.2 acc else acc)
    groups
  unseen.foldl
    (fun acc s =>
      if minGroup ≤ (((gba.lookup s.Alert).getD []).length : Int) then acc
      else setKey (alertKey s) [alertKey s] acc)
    groups2

/-- `States.GroupSets(minGroup)` from the source. The input list carries the
map's values in one iteration order; the result is the `groups` map as an
association list with Go-map overwrite semantics (`setKey`). -/
def GroupSets (states : List State) (minGroup : Int) : List (String × List AlertKey) :=
  let r := gsLoop minGroup (states.length + 1) states []
  phase34 r.1 r.2 minGroup

/-! ### Reference-level state model for `State.Copy` aliasing

`History`/`Actions` are Go slices (pointer into a backing array plus length)
and `Group` is a Go map (a reference). `State.Copy` shares the slices, shares
the `Result` pointer and deep-copies the map. The heap of backing arrays and
tag maps is explicit here so that in-place slice growth and map mutation are
observable across the copy. -/

/-- Backing stores for slice and map references. -/
structure EvHeap where
  arrays : List (List Event) := []
  tagmaps : List TagSet := []
  deriving DecidableEq, Repr, Inhabited

/-- `State` at the reference level: `History`/`Actions` are (backing-array
reference, length) pairs, `Group` is a tag-map reference; scalars are as in
`State`. -/
structure RState where
  Result : Option Result := none
  HistoryRef : Nat := 0
  HistoryLen : Nat := 0
  ActionsRef : Nat := 0
  ActionsLen : Nat := 0
  Touched : Time := 0
  Alert : String := ""
  Tags : String := ""
  GroupRef : Nat := 0
  Subject : String := ""
  Body : String := ""
  EmailBody : String := ""
  EmailSubject : String := ""
  Attachments : List String := []
  NeedAck : Bool := false
  Open : Bool := false
  Forgotten : Bool := false
  Unevaluated : Bool := false
  LastLogTime : Time := 0
  deriving DecidableEq, Repr, Inhabited

/-- The `History` slice contents a reference-level state observes. -/
def histView (h : EvHeap) (s : RState) : List Event :=
  (h.arrays.getD s.HistoryRef []).take s.HistoryLen

/-- `State.Last` at the reference level. -/
def lastView (h : EvHeap) (s : RState) : Event :=
  (histView h s).getLastD zeroEvent

/-- The `Group` map contents a reference-level state observes. -/
def groupView (h : EvHeap) (s : RState) : TagSet :=
  h.tagmaps.getD s.GroupRef []

/-- Go's `append` on the `History` slice: write in place at index `len` when
the backing array has spare capacity (visible to every slice sharing the
array), otherwise allocate a fresh array holding the old contents plus the
event and repoint the slice at it. -/
def appendEvent (h : EvHeap) (s : RState) (e : Event) : EvHeap × RState :=
  let arr := h.arrays.getD s.HistoryRef []
  if s.HistoryLen < arr.length then
    ({ h with arrays := h.arrays.set s.HistoryRef (arr.set s.HistoryLen e) },
     { s with HistoryLen := s.HistoryLen + 1 })
  else
    ({ h with arrays := h.arrays ++ [arr.take s.HistoryLen ++ [e]] },
     { s with HistoryRef := h.arrays.length, HistoryLen := s.HistoryLen + 1 })

/-- `State.Copy()` at the reference level, line for line from the source:
`History` and `Actions` share their slices, `Group` is deep-copied
(`s.Group.Copy()`, a fresh map with the same contents), `Result` is the shared
pointer, every other field is copied. -/
def copyRState (h : EvHeap) (s : RState) : EvHeap × RState :=
  ({ h with tagmaps := h.tagmaps ++ [groupView h s] },
   { Result := s.Result
     HistoryRef := s.HistoryRef
     HistoryLen := s.HistoryLen
     ActionsRef := s.ActionsRef
     ActionsLen := s.ActionsLen
     Touched := s.Touched
     Alert := s.Alert
     Tags := s.Tags
     GroupRef := h.tagmaps.length
     Subject := s.Subject
     Body := s.Body
     EmailBody := s.EmailBody
     EmailSubject := s.EmailSubject
     Attachments := s.Attachments
     NeedAck := s.NeedAck
     Open := s.Open
     Forgotten := s.Forgotten
     Unevaluated := s.Unevaluated
     LastLogTime := s.LastLogTime })

/-- Mutate one tag of a reference-level state's `Group` map in place. -/
def setGroupTag (h : EvHeap) (s : RState) (k v : String) : EvHeap :=
  { h with tagmaps := h.tagmaps.set s.GroupRef (setKey k v (groupView h s)) }

/-! ### Association-list lemmas -/

theorem lookup_setKey_self {β : Type} (k : Nat) (v : β) (l : List (Nat × β)) :
    List.lookup k (setKey k v l) = some v := by
  induction l with
  | nil => simp [setKey, List.lookup]
  | cons p tl ih =>
    by_cases h : p.1 = k
    · simp [setKey, h, List.lookup]
    · simp only [setKey, if_neg h, List.lookup]
      have : (k == p.1) = false := by
        simp [beq_iff_eq]
        exact fun he => h he.symm
      simp [this, ih]

theorem lookup_setKey_ne {β : Type} (k a : Nat) (v : β) (l : List (Nat × β))
    (h : a ≠ k) : List.lookup a (setKey k v l) = List.lookup a l := by
  have hak : (a == k) = false := by simp [beq_iff_eq, h]
  induction l with
  | nil => simp [setKey, List.lookup, hak]
  | cons p tl ih =>
    by_cases hp : p.1 = k
    · subst hp
      simp [setKey, List.lookup, hak]
    · simp only [setKey, if_neg hp, List.lookup]
      cases hb : (a == p.1) <;> simp [ih]

theorem lookup_eraseKey_self {β : Type} (k : String) (l : List (String × β)) :
    List.lookup k (eraseKey k l) = none := by
  induction l with
  | nil => simp [eraseKey, List.lookup]
  | cons p tl ih =>
    by_cases h : p.1 = k
    · simpa [eraseKey, h] using ih
    · have hb : (p.1 == k) = false := by simp [beq_iff_eq, h]
      have hb2 : (k == p.1) = false := by
        simp [beq_iff_eq]
        exact fun he => h he.symm
      simp only [eraseKey] at ih ⊢
      simp [List.filter, hb, List.lookup, hb2, ih]

theorem lookup_eraseKey_ne {β : Type} (k a : String) (l : List (String × β))
    (h : a ≠ k) : List.lookup a (eraseKey k l) = List.lookup a l := by
  induction l with
  | nil => simp [eraseKey]
  | cons p tl ih =>
    by_cases hp : p.1 = k
    · subst hp
      have hb : (a == p.1) = false := by simp [beq_iff_eq, h]
      simp only [eraseKey] at ih ⊢
      simp [List.filter, List.lookup, hb, ih]
    · have hb : (p.1 == k) = false := by simp [beq_iff_eq, hp]
      simp only [eraseKey] at ih ⊢
      cases hab : (a == p.1) <;> simp [List.filter, hb, List.lookup, hab, ih]

theorem take_set {α : Type} (l : List α) (n : Nat) (x : α) :
    (l.set n x).take n = l.take n := by
  induction l generalizing n with
  | nil => simp
  | cons a tl ih =>
    cases n with
    | zero => simp
    | succ m => simp [List.set, List.take, ih]

/-! ### Theorems for the claims -/

/-- C10: a `State` whose `History` is empty has the zero `Event` (status
`StNone`, zero time, `IncidentId` 0) as `Last()`; consequently `Status()` is
`StNone` and `IsActive()` is false, and `Append` of any event appends it and
returns `StNone` as the previous status. -/
theorem empty_history_behavior (s : State) (e : Event) (h : s.History = []) :
    s.Last = zeroEvent ∧
    s.Status = Status.StNone ∧
    s.IsActive = false ∧
    s.Append e = (Status.StNone, { s with History := [e] }) := by
  refine ⟨?_, ?_, ?_, ?_⟩
  · simp [State.Last, h]
  · simp [State.Status, State.Last, h, zeroEvent]
  · simp only [State.IsActive, State.Status, State.Last, h, List.getLastD]
    decide
  · simp [State.Append, State.Last, h, zeroEvent]

/-- C10 witness: the behavior at the empty state and a concrete event. -/
theorem empty_history_behavior_witness :
    ({} : State).Last = zeroEvent ∧
    ({} : State).Status = Status.StNone ∧
    ({} : State).IsActive = false ∧
    ({} : State).Append ({ Status := .StCritical, Time := 3 } : Event) =
      (Status.StNone, { ({} : State) with History := [{ Status := .StCritical, Time := 3 }] }) :=
  empty_history_behavior {} { Status := .StCritical, Time := 3 } rfl

/-- C4: evaluation of the incident-persistence code at id 42 and on a create.
`incidentKey` is `fmt.Sprint("incident:%d", id)`, which does not interpret the
verb: the key is `incident:%d42`, not the documented `incident:42`.
`CreateIncident` does increment the `maxIncidentId` counter atomically. -/
theorem incidentKey_not_spec_format :
    incidentKey 42 = "incident:%d42" ∧
    ¬ incidentKey 42 = "incident:42" ∧
    (CreateIncident [] "a{h=x}" 3 7).1.Id = 1 ∧
    List.lookup "maxIncidentId" (CreateIncident [] "a{h=x}" 3 7).2 = some (KVVal.int 1) ∧
    List.lookup "incident:1" (CreateIncident [] "a{h=x}" 3 7).2 = none ∧
    List.lookup (incidentKey 1) (CreateIncident [] "a{h=x}" 3 7).2 =
      some (KVVal.inc (CreateIncident [] "a{h=x}" 3 7).1) := by
  refine ⟨rfl, by decide, rfl, rfl, by decide, rfl⟩

/-- The two-state schedule exhibiting the broken `incidentList.Less`
comparator: the map-iteration order lists the `b` alert (event at time 1)
before the `a` alert (event at time 2). -/
def reconStateA : State := { Alert := "a", History := [{ Status := .StWarning, Time := 2 }] }

/-- Second state of the reconstruction-order example. -/
def reconStateB : State := { Alert := "b", History := [{ Status := .StWarning, Time := 1 }] }

/-- The schedule for the reconstruction-order example. -/
def reconSched : Schedule :=
  { status := [("b{h=x}", 0), ("a{h=x}", 1)], heap := [reconStateB, reconStateA] }

/-- C2: evaluation at a failing input. `incidentList.Less(a,b)` returns
`true` for BOTH orders of the pair `((Start=2, "a{h=x}"), (Start=1, "b{h=x}"))`
(it falls through to the `AlertKey` comparison without checking `Start`
equality), so `sort.Sort` leaves the list in the order `[(2,a), (1,b)]` for
this iteration order and ids are assigned against the lexicographic
`(Start, AlertKey)` order: the incident with the smaller `(Start, AlertKey)`
gets the larger id. -/
theorem reconstruction_id_order_violated :
    incidentLess { Start := 2, AlertKey := "a{h=x}" } { Start := 1, AlertKey := "b{h=x}" } = true ∧
    incidentLess { Start := 1, AlertKey := "b{h=x}" } { Start := 2, AlertKey := "a{h=x}" } = true ∧
    ∃ i j : Incident,
      List.lookup 2 (reconSched.createHistoricIncidents).Incidents = some i ∧
      List.lookup 1 (reconSched.createHistoricIncidents).Incidents = some j ∧
      (i.Start < j.Start ∨ (i.Start = j.Start ∧ strLtB i.AlertKey j.AlertKey = true)) ∧
      ¬ i.Id < j.Id := by
  refine ⟨by decide, by decide,
    ⟨{ Id := 2, Start := 1, End := none, AlertKey := "b{h=x}" },
     { Id := 1, Start := 2, End := none, AlertKey := "a{h=x}" },
     by decide, by decide, by decide, by decide⟩⟩

/-- The state for the Close-on-active counterexample: active (last status
Critical) and awaiting acknowledgement. -/
def closeBugState : State :=
  { Alert := "a", NeedAck := true, Open := true,
    History := [{ Status := .StCritical, Time := 1 }] }

/-- Schedule for the Close-on-active counterexample, with one pending
notification for the key. -/
def closeBugSched : Schedule :=
  { status := [("a{h=x}", 0)], heap := [closeBugState],
    Notifications := [("a{h=x}", [])] }

/-- C1 counterexample: `Action` with type Close on an active alert whose state
has `NeedAck` returns the error `cannot close active alert`, yet the scheduler
state is NOT left unchanged — `ack()` has already cleared `NeedAck` and
dropped the key's pending notifications before the precondition check. -/
theorem action_error_mutates :
    (closeBugSched.Action "u" "m" ActionType.ActionClose "a{h=x}" 5).1 =
      some "cannot close active alert" ∧
    ¬ (closeBugSched.Action "u" "m" ActionType.ActionClose "a{h=x}" 5).2 = closeBugSched ∧
    (closeBugSched.Action "u" "m" ActionType.ActionClose "a{h=x}" 5).2.Notifications = [] ∧
    closeBugSched.Notifications = [("a{h=x}", [])] ∧
    ((closeBugSched.Action "u" "m" ActionType.ActionClose "a{h=x}" 5).2.heap.get? 0).map
        State.NeedAck = some false ∧
    (closeBugSched.heap.get? 0).map State.NeedAck = some true := by
  refine ⟨rfl, by decide, rfl, rfl, rfl, rfl⟩

/-- Incident for the Start-boundary counterexample. -/
def startBoundIncident : Incident := { Id := 1, Start := 5, End := none, AlertKey := "a{h=x}" }

/-- Action at exactly the incident's start time. -/
def startBoundAction : Action := { User := "u", Message := "", Time := 5, Type_ := .ActionAcknowledge }

/-- Owning state for the Start-boundary counterexample. -/
def startBoundState : State :=
  { Alert := "a", History := [{ Status := .StWarning, Time := 5, IncidentId := 1 }],
    Actions := [startBoundAction] }

/-- Schedule for the Start-boundary counterexample. -/
def startBoundSched : Schedule :=
  { status := [("a{h=x}", 0)], heap := [startBoundState],
    Incidents := [(1, startBoundIncident)] }

/-- C3 counterexample: the state owns an action whose time equals the
incident's `Start`, yet `GetIncidentEvents` returns an empty action list —
the filter uses `a.Time.After(incident.Start)`, strict at the Start boundary,
so an action at exactly `Start` is NOT included. -/
theorem start_action_excluded :
    startBoundAction ∈ startBoundState.Actions ∧
    startBoundAction.Time = startBoundIncident.Start ∧
    startBoundSched.GetIncidentEvents 1 =
      .ok (startBoundIncident, [{ Status := .StWarning, Time := 5, IncidentId := 1 }], []) := by
  refine ⟨by decide, rfl, rfl⟩

theorem stampFrom_not_before_end (id : Nat) (te : Time) :
    ∀ (l : List Event) (j : Nat) (e : Event),
      l.get? j = some e → te ≤ e.Time →
      (stampFrom id (some te) l).get? j = some e := by
  intro l
  induction l with
  | nil => intro j e hj _; simp at hj
  | cons ev rest ih =>
    intro j e hj hte
    by_cases hlt : ev.Time < te
    · simp only [stampFrom, if_pos hlt]
      cases j with
      | zero =>
        simp only [List.get?] at hj
        cases hj
        exact absurd hlt (Nat.not_lt.mpr hte)
      | succ n =>
        simp only [List.get?] at hj ⊢
        exact ih n e hj hte
    · simp only [stampFrom, if_neg hlt]
      exact hj

/-- C5: the End-boundary treatment is asymmetric. Stamping during
reconstruction leaves every event at or past the incident's `End` untouched
(`ev.Time.Before(*incident.End)` is strict, so an event at exactly `End` is
not stamped), while `GetIncidentEvents` does include an action whose time
equals `End` in the returned action list. -/
theorem end_boundary_asymmetry
    (id : Nat) (te : Time) (l : List Event) (j : Nat) (e : Event)
    (s : Schedule) (iid : Nat) (inc : Incident) (st : State) (a : Action)
    (he : l.get? j = some e) (hte : te ≤ e.Time)
    (hlk : List.lookup iid s.Incidents = some inc)
    (hst : s.GetStatus inc.AlertKey = some st)
    (ha : a ∈ st.Actions) (hend : inc.End = some te) (hat : a.Time = te)
    (hgt : inc.Start < a.Time) :
    (stampFrom id (some te) l).get? j = some e ∧
    ∃ evs acts, s.GetIncidentEvents iid = Except.ok (inc, evs, acts) ∧ a ∈ acts := by
  refine ⟨stampFrom_not_before_end id te l j e he hte, ?_⟩
  refine ⟨collectRun iid st.History false, st.Actions.filter (actionInIncident inc), ?_, ?_⟩
  · simp only [Schedule.GetIncidentEvents, hlk, hst]
  · rw [List.mem_filter]
    refine ⟨ha, ?_⟩
    simp only [actionInIncident, hend, hat]
    simp [Nat.lt_of_lt_of_le hgt (by rw [hat] : a.Time ≤ te)]

/-- C5 witness: a concrete schedule where the incident ends at time 9; the
event at time 9 is left unstamped while the action at time 9 is returned. -/
theorem end_boundary_asymmetry_witness :
    ((stampFrom 3 (some 9) [{ Status := .StWarning, Time := 9 }]).get? 0 =
      some { Status := .StWarning, Time := 9 }) ∧
    ∃ evs acts,
      Schedule.GetIncidentEvents
        { status := [("a{h=x}", 0)],
          heap := [{ Alert := "a",
                     History := [{ Status := .StWarning, Time := 4, IncidentId := 3 }],
                     Actions := [{ User := "u", Message := "", Time := 9, Type_ := .ActionClose }] }],
          Incidents := [(3, { Id := 3, Start := 4, End := some 9, AlertKey := "a{h=x}" })] }
        3 = Except.ok ({ Id := 3, Start := 4, End := some 9, AlertKey := "a{h=x}" }, evs, acts) ∧
      ({ User := "u", Message := "", Time := 9, Type_ := .ActionClose } : Action) ∈ acts :=
  end_boundary_asymmetry 3 9 [{ Status := .StWarning, Time := 9 }] 0
    { Status := .StWarning, Time := 9 }
    { status := [("a{h=x}", 0)],
      heap := [{ Alert := "a",
                 History := [{ Status := .StWarning, Time := 4, IncidentId := 3 }],
                 Actions := [{ User := "u", Message := "", Time := 9, Type_ := .ActionClose }] }],
      Incidents := [(3, { Id := 3, Start := 4, End := some 9, AlertKey := "a{h=x}" })] }
    3 { Id := 3, Start := 4, End := some 9, AlertKey := "a{h=x}" }
    { Alert := "a",
      History := [{ Status := .StWarning, Time := 4, IncidentId := 3 }],
      Actions := [{ User := "u", Message := "", Time := 9, Type_ := .ActionClose }] }
    { User := "u", Message := "", Time := 9, Type_ := .ActionClose }
    rfl (by decide) rfl rfl (by decide) rfl rfl (by decide)

/-! Small `getD` facts for the reference-level heap. -/

theorem getD_set_self {α : Type} (l : List α) (i : Nat) (x : α) (d : α)
    (h : i < l.length) : (l.set i x).getD i d = x := by
  rw [List.getD_eq_getElem?_getD, List.getElem?_set_self h]
  rfl

theorem getD_set_ne {α : Type} (l : List α) (i j : Nat) (x : α) (d : α)
    (h : i ≠ j) : (l.set i x).getD j d = l.getD j d := by
  rw [List.getD_eq_getElem?_getD, List.getElem?_set_ne h, ← List.getD_eq_getElem?_getD]

theorem getD_append_left {α : Type} (l l2 : List α) (i : Nat) (d : α)
    (h : i < l.length) : (l ++ l2).getD i d = l.getD i d := by
  rw [List.getD_eq_getElem?_getD, List.getElem?_append, if_pos h,
    ← List.getD_eq_getElem?_getD]

theorem getD_append_length {α : Type} (l : List α) (x : α) (d : α) :
    (l ++ [x]).getD l.length d = x := by
  rw [List.getD_eq_getElem?_getD]
  have : (l ++ [x])[l.length]? = some x := by
    rw [List.getElem?_append_right (Nat.le_refl _)]
    simp
  rw [this]
  rfl

/-- No observer sharing the `History` slice is perturbed by an append through
another header with the same reference and length. -/
theorem histView_appendEvent_other (h : EvHeap) (s c : RState) (e : Event)
    (hr : s.HistoryRef < h.arrays.length)
    (href : c.HistoryRef = s.HistoryRef) (hlen : c.HistoryLen = s.HistoryLen) :
    histView (appendEvent h s e).1 c = histView h c := by
  simp only [appendEvent]
  by_cases hcap : s.HistoryLen < (h.arrays.getD s.HistoryRef []).length
  · simp only [if_pos hcap, histView, href, hlen]
    rw [getD_set_self _ _ _ _ hr, take_set]
  · simp only [if_neg hcap, histView, href, hlen]
    rw [getD_append_left _ _ _ _ hr]

/-- C8: after `c := s.Copy()`, the copy agrees with the original on every
field — scalars, the shared `History`/`Actions` slice headers, the `History`
contents and the deep-copied `Group` contents — and the aliasing is safe:
appending an event to either one's `History` leaves the other's view and
`Last()` unchanged (Go append writes past the observer's length or
reallocates), and mutating the copy's `Group` map does not affect the
original's `Group`. -/
theorem copy_frame (h : EvHeap) (s : RState) (hc : EvHeap) (c : RState)
    (e : Event) (k v : String)
    (hr : s.HistoryRef < h.arrays.length)
    (hg : s.GroupRef < h.tagmaps.length)
    (hcopy : copyRState h s = (hc, c)) :
    (c.Result = s.Result ∧ c.HistoryRef = s.HistoryRef ∧ c.HistoryLen = s.HistoryLen ∧
     c.ActionsRef = s.ActionsRef ∧ c.ActionsLen = s.ActionsLen ∧
     c.Touched = s.Touched ∧ c.Alert = s.Alert ∧ c.Tags = s.Tags ∧
     c.Subject = s.Subject ∧ c.Body = s.Body ∧ c.EmailBody = s.EmailBody ∧
     c.EmailSubject = s.EmailSubject ∧ c.Attachments = s.Attachments ∧
     c.NeedAck = s.NeedAck ∧ c.Open = s.Open ∧ c.Forgotten = s.Forgotten ∧
     c.Unevaluated = s.Unevaluated ∧ c.LastLogTime = s.LastLogTime) ∧
    (histView hc c = histView hc s ∧ groupView hc c = groupView hc s) ∧
    (histView (appendEvent hc s e).1 c = histView hc c ∧
     lastView (appendEvent hc s e).1 c = lastView hc c) ∧
    (histView (appendEvent hc c e).1 s = histView hc s ∧
     lastView (appendEvent hc c e).1 s = lastView hc s) ∧
    groupView (setGroupTag hc c k v) s = groupView hc s := by
  have hhc : hc = (copyRState h s).1 := by rw [hcopy]
  have hcc : c = (copyRState h s).2 := by rw [hcopy]
  subst hhc
  subst hcc
  refine ⟨⟨rfl, rfl, rfl, rfl, rfl, rfl, rfl, rfl, rfl, rfl, rfl, rfl, rfl, rfl,
    rfl, rfl, rfl, rfl⟩, ⟨rfl, ?_⟩, ⟨?_, ?_⟩, ⟨?_, ?_⟩, ?_⟩
  · -- copy-time Group contents agree: the fresh cell holds the old contents
    show (h.tagmaps ++ [groupView h s]).getD h.tagmaps.length [] =
      (h.tagmaps ++ [groupView h s]).getD s.GroupRef []
    rw [getD_append_length, getD_append_left _ _ _ _ hg]
    rfl
  · exact histView_appendEvent_other (copyRState h s).1 s (copyRState h s).2 e hr rfl rfl
  · show (histView (appendEvent (copyRState h s).1 s e).1 (copyRState h s).2).getLastD zeroEvent =
      (histView (copyRState h s).1 (copyRState h s).2).getLastD zeroEvent
    rw [histView_appendEvent_other (copyRState h s).1 s (copyRState h s).2 e hr rfl rfl]
  · exact histView_appendEvent_other (copyRState h s).1 (copyRState h s).2 s e hr rfl rfl
  · show (histView (appendEvent (copyRState h s).1 (copyRState h s).2 e).1 s).getLastD zeroEvent =
      (histView (copyRState h s).1 s).getLastD zeroEvent
    rw [histView_appendEvent_other (copyRState h s).1 (copyRState h s).2 s e hr rfl rfl]
  · show ((copyRState h s).1.tagmaps.set (copyRState h s).2.GroupRef
        (setKey k v (groupView (copyRState h s).1 (copyRState h s).2))).getD s.GroupRef [] =
      (copyRState h s).1.tagmaps.getD s.GroupRef []
    rw [getD_set_ne]
    exact fun heq => Nat.lt_irrefl _ (heq ▸ hg)

/-- C8 witness: a concrete heap with one shared backing array and one tag map. -/
theorem copy_frame_witness :
    (let h : EvHeap := { arrays := [[{ Status := .StWarning, Time := 1 }]],
                         tagmaps := [[("dc", "x")]] }
     let s : RState := { HistoryRef := 0, HistoryLen := 1, GroupRef := 0, NeedAck := true }
     let hc : EvHeap := { arrays := [[{ Status := .StWarning, Time := 1 }]],
                          tagmaps := [[("dc", "x")], [("dc", "x")]] }
     let c : RState := { HistoryRef := 0, HistoryLen := 1, GroupRef := 1, NeedAck := true }
     let e : Event := { Status := .StCritical, Time := 2 }
     (c.Result = s.Result ∧ c.HistoryRef = s.HistoryRef ∧ c.HistoryLen = s.HistoryLen ∧
      c.ActionsRef = s.ActionsRef ∧ c.ActionsLen = s.ActionsLen ∧
      c.Touched = s.Touched ∧ c.Alert = s.Alert ∧ c.Tags = s.Tags ∧
      c.Subject = s.Subject ∧ c.Body = s.Body ∧ c.EmailBody = s.EmailBody ∧
      c.EmailSubject = s.EmailSubject ∧ c.Attachments = s.Attachments ∧
      c.NeedAck = s.NeedAck ∧ c.Open = s.Open ∧ c.Forgotten = s.Forgotten ∧
      c.Unevaluated = s.Unevaluated ∧ c.LastLogTime = s.LastLogTime) ∧
     (histView hc c = histView hc s ∧ groupView hc c = groupView hc s) ∧
     (histView (appendEvent hc s e).1 c = histView hc c ∧
      lastView (appendEvent hc s e).1 c = lastView hc c) ∧
     (histView (appendEvent hc c e).1 s = histView hc s ∧
      lastView (appendEvent hc c e).1 s = lastView hc s) ∧
     groupView (setGroupTag hc c "dc" "y") s = groupView hc s) :=
  copy_frame
    { arrays := [[{ Status := .StWarning, Time := 1 }]], tagmaps := [[("dc", "x")]] }
    { HistoryRef := 0, HistoryLen := 1, GroupRef := 0, NeedAck := true }
    { arrays := [[{ Status := .StWarning, Time := 1 }]],
      tagmaps := [[("dc", "x")], [("dc", "x")]] }
    { HistoryRef := 0, HistoryLen := 1, GroupRef := 1, NeedAck := true }
    { Status := .StCritical, Time := 2 } "dc" "y"
    (by decide) (by decide) (by decide)

theorem getElem?_set_self' {α : Type} (l : List α) (i : Nat) (a : α)
    (h : i < l.length) : (l.set i a)[i]? = some a :=
  List.getElem?_set_self h

theorem lt_length_of_getElem? {α : Type} (l : List α) (i : Nat) (a : α)
    (h : l[i]? = some a) : i < l.length :=
  (List.getElem?_eq_some.mp h).1

theorem getState_some (s : Schedule) (ak : AlertKey) (r : Nat) (st : State)
    (h : s.getState ak = some (r, st)) :
    List.lookup ak s.status = some r ∧ s.heap[r]? = some st := by
  unfold Schedule.getState at h
  rw [Option.bind_eq_some] at h
  obtain ⟨r2, hlk, hmap⟩ := h
  rw [Option.map_eq_some'] at hmap
  obtain ⟨st2, hg, heq⟩ := hmap
  obtain ⟨h1, h2⟩ := Prod.mk.injEq .. ▸ heq
  subst h1
  subst h2
  exact ⟨hlk, hg⟩

/-- Introduction form for `getState`. -/
theorem getState_intro (s : Schedule) (ak : AlertKey) (r : Nat) (st : State)
    (h1 : List.lookup ak s.status = some r) (h2 : s.heap[r]? = some st) :
    s.getState ak = some (r, st) := by
  unfold Schedule.getState
  rw [h1, Option.some_bind, h2, Option.map_some']

/-- The success package of the Close branch: on a non-active state, `Action`
returns no error, sets `Open` false, appends the audit record, leaves the
history untouched and stamps the linked incident's `End`. -/
theorem action_close_inactive (s : Schedule) (u m : String) (ak : AlertKey)
    (now : Time) (r : Nat) (st : State)
    (h : s.getState ak = some (r, st)) (hact : st.IsActive = false) :
    ∃ s' st',
      s.Action u m .ActionClose ak now = (none, s') ∧
      s'.status = s.status ∧
      s'.getState ak = some (r, st') ∧
      st'.Open = false ∧
      st'.History = st.History ∧
      st'.Actions = st.Actions ++ [⟨u, m, now, .ActionClose⟩] ∧
      (∀ inc, st.Last.IncidentId ≠ 0 →
        List.lookup st.Last.IncidentId s.Incidents = some inc →
        List.lookup st.Last.IncidentId s'.Incidents = some { inc with End := some now }) := by
  obtain ⟨hlk, hg⟩ := getState_some s ak r st h
  have hrlen : r < s.heap.length := lt_length_of_getElem? _ _ _ hg
  simp only [Schedule.Action, h]
  by_cases hna : st.NeedAck
  case pos =>
    have hact1 : ({ st with NeedAck := false } : State).IsActive = false := hact
    have hlast : ({ st with NeedAck := false, Open := false } : State).Last = st.Last := rfl
    simp only [hna, if_true, hact1, Bool.false_eq_true, if_false, State.Action, hlast]
    by_cases hii : st.Last.IncidentId ≠ 0
    · simp only [if_pos hii]
      cases hinc : List.lookup st.Last.IncidentId s.Incidents with
      | none =>
        simp only [hinc]
        refine ⟨_, { st with NeedAck := false, Open := false, Actions := st.Actions ++ [⟨u, m, now, .ActionClose⟩] }, rfl, rfl, ?_, rfl, rfl, rfl, ?_⟩
        · refine getState_intro _ _ _ _ hlk ?_
          exact getElem?_set_self' _ _ _ (by simpa using hrlen)
        · intro inc hii2 hlook
          cases hlook
      | some incident =>
        simp only [hinc]
        refine ⟨_, { st with NeedAck := false, Open := false, Actions := st.Actions ++ [⟨u, m, now, .ActionClose⟩] }, rfl, rfl, ?_, rfl, rfl, rfl, ?_⟩
        · refine getState_intro _ _ _ _ hlk ?_
          exact getElem?_set_self' _ _ _ (by simpa using hrlen)
        · intro inc hii2 hlook
          cases hlook
          exact lookup_setKey_self _ _ _
    · simp only [if_neg hii]
      refine ⟨_, { st with NeedAck := false, Open := false, Actions := st.Actions ++ [⟨u, m, now, .ActionClose⟩] }, rfl, rfl, ?_, rfl, rfl, rfl, ?_⟩
      · refine getState_intro _ _ _ _ hlk ?_
        exact getElem?_set_self' _ _ _ (by simpa using hrlen)
      · intro inc hii2 hlook
        exact absurd hii2 hii
  case neg =>
    rw [if_neg hna, if_neg hna]
    rw [if_neg (show ¬ (st.IsActive = true) by simp [hact])]
    have hlast : ({ st with Open := false } : State).Last = st.Last := rfl
    rw [hlast]
    by_cases hii : st.Last.IncidentId ≠ 0
    · rw [if_pos hii]
      cases hinc : List.lookup st.Last.IncidentId s.Incidents with
      | none =>
        simp only [hinc]
        refine ⟨_, { st with Open := false, Actions := st.Actions ++ [⟨u, m, now, .ActionClose⟩] }, rfl, rfl, ?_, rfl, rfl, rfl, ?_⟩
        · refine getState_intro _ _ _ _ hlk ?_
          exact getElem?_set_self' _ _ _ (by simpa using hrlen)
        · intro inc hii2 hlook
          cases hlook
      | some incident =>
        simp only [hinc]
        refine ⟨_, { st with Open := false, Actions := st.Actions ++ [⟨u, m, now, .ActionClose⟩] }, rfl, rfl, ?_, rfl, rfl, rfl, ?_⟩
        · refine getState_intro _ _ _ _ hlk ?_
          exact getElem?_set_self' _ _ _ (by simpa using hrlen)
        · intro inc hii2 hlook
          cases hlook
          exact lookup_setKey_self _ _ _
    · rw [if_neg hii]
      refine ⟨_, { st with Open := false, Actions := st.Actions ++ [⟨u, m, now, .ActionClose⟩] }, rfl, rfl, ?_, rfl, rfl, rfl, ?_⟩
      · refine getState_intro _ _ _ _ hlk ?_
        exact getElem?_set_self' _ _ _ (by simpa using hrlen)
      · intro inc hii2 hlook
        exact absurd hii2 hii

/-- `History`-equal states agree on `IsActive`. -/
theorem isActive_congr (a b : State) (hh : a.History = b.History) :
    a.IsActive = b.IsActive := by
  unfold State.IsActive State.Status State.Last
  rw [hh]

theorem getState_none (s : Schedule) (ak : AlertKey)
    (h : List.lookup ak s.status = none) : s.getState ak = none := by
  unfold Schedule.getState
  rw [h]
  rfl

/-- C6: on a state whose last status is not above Normal, Close succeeds: it
returns no error, sets `Open` false, appends the Close audit action, leaves
the history unchanged, and when the last event links a registered incident it
stamps that incident's `End` with the action timestamp; a second Close on the
now-closed state again succeeds with `Open` still false. Close on a state
whose last status is above Normal returns `cannot close active alert`. -/
theorem close_semantics (s : Schedule) (u m u2 m2 : String) (ak : AlertKey)
    (now now2 : Time) (r : Nat) (st : State)
    (h : s.getState ak = some (r, st)) :
    (st.IsActive = false →
      ∃ s' st',
        s.Action u m .ActionClose ak now = (none, s') ∧
        s'.getState ak = some (r, st') ∧
        st'.Open = false ∧
        st'.History = st.History ∧
        st'.Actions = st.Actions ++ [⟨u, m, now, .ActionClose⟩] ∧
        (∀ inc, st.Last.IncidentId ≠ 0 →
          List.lookup st.Last.IncidentId s.Incidents = some inc →
          List.lookup st.Last.IncidentId s'.Incidents = some { inc with End := some now }) ∧
        (s'.Action u2 m2 .ActionClose ak now2).1 = none ∧
        (∃ st2, ((s'.Action u2 m2 .ActionClose ak now2).2).getState ak = some (r, st2) ∧
          st2.Open = false)) ∧
    (st.IsActive = true →
      (s.Action u m .ActionClose ak now).1 = some "cannot close active alert") := by
  constructor
  · intro hact
    obtain ⟨s', st', he, hstat, hget, hopen, hhist, hacts, hincs⟩ :=
      action_close_inactive s u m ak now r st h hact
    have hact2 : st'.IsActive = false := by rw [isActive_congr st' st hhist]; exact hact
    obtain ⟨s2, st2, he2, hstat2, hget2, hopen2, hh2, ha2, hi2⟩ :=
      action_close_inactive s' u2 m2 ak now2 r st' hget hact2
    refine ⟨s', st', he, hget, hopen, hhist, hacts, hincs, ?_, ⟨st2, ?_, hopen2⟩⟩
    · rw [he2]
    · rw [he2]
      exact hget2
  · intro hact
    simp only [Schedule.Action, h]
    by_cases hna : st.NeedAck
    · have hact1 : ({ st with NeedAck := false } : State).IsActive = true := hact
      simp only [hna, if_true]
      rw [if_pos hact1]
    · rw [if_neg hna, if_neg hna, if_pos hact]

/-- The concrete closed state for the C6 witness: history ends Normal, both
events linked to incident 7, acknowledgement pending. -/
def closeWitState : State :=
  { Alert := "a", NeedAck := true, Open := true,
    History := [{ Status := .StCritical, Time := 1, IncidentId := 7 },
                { Status := .StNormal, Time := 2, IncidentId := 7 }] }

/-- The schedule for the C6 witness. -/
def closeWitSched : Schedule :=
  { status := [("a{h=x}", 0)], heap := [closeWitState],
    Incidents := [(7, { Id := 7, Start := 1, End := none, AlertKey := "a{h=x}" })],
    Notifications := [("a{h=x}", [])] }

/-- C6 witness: the theorem applied to the concrete closed state. -/
theorem close_semantics_witness :
    (closeWitState.IsActive = false →
      ∃ s' st',
        closeWitSched.Action "u" "m" .ActionClose "a{h=x}" 5 = (none, s') ∧
        s'.getState "a{h=x}" = some (0, st') ∧
        st'.Open = false ∧
        st'.History = closeWitState.History ∧
        st'.Actions = closeWitState.Actions ++ [⟨"u", "m", 5, .ActionClose⟩] ∧
        (∀ inc, closeWitState.Last.IncidentId ≠ 0 →
          List.lookup closeWitState.Last.IncidentId closeWitSched.Incidents = some inc →
          List.lookup closeWitState.Last.IncidentId s'.Incidents =
            some { inc with End := some 5 }) ∧
        (s'.Action "u2" "m2" .ActionClose "a{h=x}" 6).1 = none ∧
        (∃ st2, ((s'.Action "u2" "m2" .ActionClose "a{h=x}" 6).2).getState "a{h=x}" =
            some (0, st2) ∧ st2.Open = false)) ∧
    (closeWitState.IsActive = true →
      (closeWitSched.Action "u" "m" .ActionClose "a{h=x}" 5).1 =
        some "cannot close active alert") :=
  close_semantics closeWitSched "u" "m" "u2" "m2" "a{h=x}" 5 6 0 closeWitState rfl

/-- Unknown alert keys: `Action` errors and changes nothing. -/
theorem action_no_key (s : Schedule) (u m : String) (t : ActionType)
    (ak : AlertKey) (now : Time) (h : List.lookup ak s.status = none) :
    s.Action u m t ak now = (some ("no such alert key: " ++ ak), s) := by
  simp only [Schedule.Action, getState_none s ak h]

/-- The success package of the Forget branch on an Unknown state. -/
theorem action_forget_unknown (s : Schedule) (u m : String) (ak : AlertKey)
    (now : Time) (r : Nat) (st : State)
    (h : s.getState ak = some (r, st))
    (hunk : st.AbnormalStatus = Status.StUnknown) :
    ∃ s' st',
      s.Action u m .ActionForget ak now = (none, s') ∧
      List.lookup ak s'.status = none ∧
      s'.heap[r]? = some st' ∧
      st'.Open = false ∧
      st'.Forgotten = true := by
  obtain ⟨hlk, hg⟩ := getState_some s ak r st h
  have hrlen : r < s.heap.length := lt_length_of_getElem? _ _ _ hg
  simp only [Schedule.Action, h]
  rw [if_neg (show ¬((!decide (st.AbnormalStatus = Status.StUnknown)) = true) by simp [hunk])]
  by_cases hna : st.NeedAck
  · simp only [hna, if_true]
    refine ⟨_, { st with NeedAck := false, Open := false, Forgotten := true, Actions := st.Actions ++ [⟨u, m, now, .ActionForget⟩] }, rfl, ?_, ?_, rfl, rfl⟩
    · exact lookup_eraseKey_self _ _
    · exact getElem?_set_self' _ _ _ (by simpa using hrlen)
  · rw [if_neg hna, if_neg hna]
    refine ⟨_, { st with Open := false, Forgotten := true, Actions := st.Actions ++ [⟨u, m, now, .ActionForget⟩] }, rfl, ?_, ?_, rfl, rfl⟩
    · exact lookup_eraseKey_self _ _
    · exact getElem?_set_self' _ _ _ (by simpa using hrlen)

/-- C7: Forget succeeds exactly when the state's `AbnormalStatus()` is
Unknown; on success the (ack'd if needed) state object ends with `Open` false
and `Forgotten` true and the alert key is removed from the state store, so
any subsequent action on that key fails with `no such alert key`; on a
non-Unknown state it returns `can only forget unknowns` and the scheduler is
untouched. -/
theorem forget_semantics (s : Schedule) (u m u2 m2 : String) (t2 : ActionType)
    (ak : AlertKey) (now now2 : Time) (r : Nat) (st : State)
    (h : s.getState ak = some (r, st)) :
    (st.AbnormalStatus = Status.StUnknown →
      ∃ s' st',
        s.Action u m .ActionForget ak now = (none, s') ∧
        List.lookup ak s'.status = none ∧
        s'.heap[r]? = some st' ∧
        st'.Open = false ∧
        st'.Forgotten = true ∧
        (s'.Action u2 m2 t2 ak now2) = (some ("no such alert key: " ++ ak), s')) ∧
    (st.AbnormalStatus ≠ Status.StUnknown →
      s.Action u m .ActionForget ak now = (some "can only forget unknowns", s)) := by
  constructor
  · intro hunk
    obtain ⟨s', st', he, hnone, hh, ho, hf⟩ :=
      action_forget_unknown s u m ak now r st h hunk
    exact ⟨s', st', he, hnone, hh, ho, hf, action_no_key s' u2 m2 t2 ak now2 hnone⟩
  · intro hnotunk
    simp only [Schedule.Action, h]
    rw [if_pos]
    simp [hnotunk]

/-- The unknown-status state for the C7 witness. -/
def forgetWitState : State :=
  { Alert := "a", NeedAck := true, Open := true,
    History := [{ Status := .StUnknown, Time := 1 }] }

/-- The schedule for the C7 witness. -/
def forgetWitSched : Schedule :=
  { status := [("a{h=x}", 0)], heap := [forgetWitState],
    Notifications := [("a{h=x}", [])] }

/-- C7 witness: the theorem applied to the concrete unknown state. -/
theorem forget_semantics_witness :
    (forgetWitState.AbnormalStatus = Status.StUnknown →
      ∃ s' st',
        forgetWitSched.Action "u" "m" .ActionForget "a{h=x}" 5 = (none, s') ∧
        List.lookup "a{h=x}" s'.status = none ∧
        s'.heap[0]? = some st' ∧
        st'.Open = false ∧
        st'.Forgotten = true ∧
        (s'.Action "u2" "m2" .ActionAcknowledge "a{h=x}" 6) =
          (some ("no such alert key: " ++ "a{h=x}"), s')) ∧
    (forgetWitState.AbnormalStatus ≠ Status.StUnknown →
      forgetWitSched.Action "u" "m" .ActionForget "a{h=x}" 5 =
        (some "can only forget unknowns", forgetWitSched)) :=
  forget_semantics forgetWitSched "u" "m" "u2" "m2" .ActionAcknowledge "a{h=x}" 5 6 0
    forgetWitState rfl


/-- C1 (amended): every error return of `Schedule.Action` leaves the state
store map, the incident registry and the id counter unchanged, and leaves the
heap and pending notifications unchanged too — except in exactly one case:
Close on an active alert whose state has `NeedAck`, where `ack()` has already
cleared that state's `NeedAck` (no other field) and deleted the key's pending
notifications before the error `cannot close active alert` is returned. -/
theorem action_error_frame (s : Schedule) (u m : String) (t : ActionType)
    (ak : AlertKey) (now : Time) (err : String)
    (h : (s.Action u m t ak now).1 = some err) :
    (s.Action u m t ak now).2.status = s.status ∧
    (s.Action u m t ak now).2.Incidents = s.Incidents ∧
    (s.Action u m t ak now).2.maxIncidentId = s.maxIncidentId ∧
    (((s.Action u m t ak now).2.heap = s.heap ∧
      (s.Action u m t ak now).2.Notifications = s.Notifications) ∨
     (t = .ActionClose ∧ ∃ r st, s.getState ak = some (r, st) ∧
       st.NeedAck = true ∧ st.IsActive = true ∧
       (s.Action u m t ak now).2.heap = s.heap.set r ({ st with NeedAck := false }) ∧
       (s.Action u m t ak now).2.Notifications = eraseKey ak s.Notifications)) := by
  cases hgs : s.getState ak with
  | none =>
    simp [Schedule.Action, hgs]
  | some pair =>
    obtain ⟨r, st⟩ := pair
    cases t with
    | ActionAcknowledge =>
      simp only [Schedule.Action, hgs] at h ⊢
      by_cases h1 : st.NeedAck
      · by_cases h2 : st.Open
        · simp only [h1, h2, Bool.not_true, Bool.false_eq_true, if_false] at h
          exact absurd h (by simp)
        · simp only [h1, h2, Bool.not_true, Bool.not_false, Bool.false_eq_true,
            if_false, if_true]
          simp
      · rw [if_pos (show (!st.NeedAck) = true by simp [h1])]
        simp
    | ActionClose =>
      simp only [Schedule.Action, hgs] at h ⊢
      by_cases hna : st.NeedAck
      · have hia : ({ st with NeedAck := false } : State).IsActive = st.IsActive := rfl
        simp only [hna, if_true, hia] at h ⊢
        by_cases hact : st.IsActive = true
        · simp only [hact, if_true] at h ⊢
          refine ⟨?_, ?_, ?_, Or.inr ⟨?_, r, st, ?_, ?_, ?_, ?_, ?_⟩⟩ <;> simp [hgs, hna, hact]
        · rw [if_neg hact] at h
          exact absurd h (by simp)
      · simp only [hna, Bool.false_eq_true, if_false] at h ⊢
        by_cases hact : st.IsActive = true
        · simp only [hact, if_true] at h ⊢
          simp
        · rw [if_neg hact] at h
          exact absurd h (by simp)
    | ActionForget =>
      simp only [Schedule.Action, hgs] at h ⊢
      by_cases hunk : st.AbnormalStatus = Status.StUnknown
      · rw [if_neg (show ¬((!decide (st.AbnormalStatus = Status.StUnknown)) = true) by
          simp [hunk])] at h
        by_cases hna : st.NeedAck
        · simp only [hna, if_true] at h
          exact absurd h (by simp)
        · simp only [hna, Bool.false_eq_true, if_false] at h
          exact absurd h (by simp)
      · rw [if_pos (show (!decide (st.AbnormalStatus = Status.StUnknown)) = true by
          simp [hunk])] at h ⊢
        simp
    | ActionNone =>
      simp only [Schedule.Action, hgs] at h ⊢
      simp

/-- C1 witness: applying the frame theorem at the unknown-key error. -/
theorem action_error_frame_witness :
    (({} : Schedule).Action "u" "m" .ActionAcknowledge "x" 1).2.status = ({} : Schedule).status ∧
    (({} : Schedule).Action "u" "m" .ActionAcknowledge "x" 1).2.Incidents = ({} : Schedule).Incidents ∧
    (({} : Schedule).Action "u" "m" .ActionAcknowledge "x" 1).2.maxIncidentId = ({} : Schedule).maxIncidentId ∧
    (((({} : Schedule).Action "u" "m" .ActionAcknowledge "x" 1).2.heap = ({} : Schedule).heap ∧
      (({} : Schedule).Action "u" "m" .ActionAcknowledge "x" 1).2.Notifications = ({} : Schedule).Notifications) ∨
     (ActionType.ActionAcknowledge = .ActionClose ∧ ∃ r st, ({} : Schedule).getState "x" = some (r, st) ∧
       st.NeedAck = true ∧ st.IsActive = true ∧
       (({} : Schedule).Action "u" "m" .ActionAcknowledge "x" 1).2.heap = ({} : Schedule).heap.set r ({ st with NeedAck := false }) ∧
       (({} : Schedule).Action "u" "m" .ActionAcknowledge "x" 1).2.Notifications = eraseKey "x" ({} : Schedule).Notifications)) :=
  action_error_frame {} "u" "m" .ActionAcknowledge "x" 1 ("no such alert key: " ++ "x") rfl

theorem collectRun_true_eq (id : Nat) :
    ∀ l : List Event, collectRun id l true = l.takeWhile (fun e => e.IncidentId == id)
  | [] => rfl
  | e :: rest => by
    rw [List.takeWhile_cons]
    by_cases he : e.IncidentId = id
    · rw [show collectRun id (e :: rest) true = e :: collectRun id rest true from by
        simp [collectRun, he]]
      rw [if_pos (by simp [he]), collectRun_true_eq id rest]
    · rw [show collectRun id (e :: rest) true = [] from by simp [collectRun, he]]
      rw [if_neg (by simp [he])]

theorem collectRun_false_eq (id : Nat) :
    ∀ l : List Event,
      collectRun id l false =
        (l.dropWhile (fun e => !(e.IncidentId == id))).takeWhile (fun e => e.IncidentId == id)
  | [] => rfl
  | e :: rest => by
    rw [List.dropWhile_cons]
    by_cases he : e.IncidentId = id
    · rw [show collectRun id (e :: rest) false = e :: collectRun id rest true from by
        simp [collectRun, he]]
      rw [if_neg (by simp [he]), List.takeWhile_cons, if_pos (by simp [he]),
        collectRun_true_eq id rest]
    · rw [show collectRun id (e :: rest) false = collectRun id rest false from by
        simp [collectRun, he]]
      rw [if_pos (by simp [he]), collectRun_false_eq id rest]

/-- C3 (amended): `GetIncidentEvents(id)` returns the first contiguous run of
events whose `IncidentId` is `id` (skip to the first match, then take while
matching), together with exactly those actions whose time lies in the
interval `(Start, End]` — strictly after `Start`, and at or before `End` when
`End` is present. -/
theorem getIncidentEvents_characterization (s : Schedule) (iid : Nat)
    (inc : Incident) (st : State)
    (hlk : List.lookup iid s.Incidents = some inc)
    (hst : s.GetStatus inc.AlertKey = some st) :
    ∃ acts,
      s.GetIncidentEvents iid = Except.ok (inc,
        (st.History.dropWhile (fun e => !(e.IncidentId == iid))).takeWhile
          (fun e => e.IncidentId == iid),
        acts) ∧
      ∀ a : Action, a ∈ acts ↔
        (a ∈ st.Actions ∧ inc.Start < a.Time ∧ ∀ te, inc.End = some te → a.Time ≤ te) := by
  refine ⟨st.Actions.filter (actionInIncident inc), ?_, ?_⟩
  · simp only [Schedule.GetIncidentEvents, hlk, hst, collectRun_false_eq]
  · intro a
    rw [List.mem_filter]
    constructor
    · rintro ⟨hmem, hpred⟩
      refine ⟨hmem, ?_, ?_⟩
      · simp only [actionInIncident, Bool.and_eq_true, decide_eq_true_eq] at hpred
        exact hpred.1
      · intro te hte
        simp only [actionInIncident, hte, Bool.and_eq_true, Bool.or_eq_true,
          decide_eq_true_eq] at hpred
        rcases hpred.2 with hlt | heq
        · exact Nat.le_of_lt hlt
        · exact Nat.le_of_eq heq
    · rintro ⟨hmem, hgt, hle⟩
      refine ⟨hmem, ?_⟩
      simp only [actionInIncident, Bool.and_eq_true, decide_eq_true_eq]
      refine ⟨hgt, ?_⟩
      cases hend : inc.End with
      | none => rfl
      | some te =>
        simp only [Bool.or_eq_true, decide_eq_true_eq]
        rcases Nat.lt_or_eq_of_le (hle te hend) with hlt | heq
        · exact Or.inl hlt
        · exact Or.inr heq

/-- C3 witness: the amended characterization at a concrete schedule. -/
theorem getIncidentEvents_characterization_witness :
    ∃ acts,
      startBoundSched.GetIncidentEvents 1 = Except.ok (startBoundIncident,
        (startBoundState.History.dropWhile (fun e => !(e.IncidentId == 1))).takeWhile
          (fun e => e.IncidentId == 1),
        acts) ∧
      ∀ a : Action, a ∈ acts ↔
        (a ∈ startBoundState.Actions ∧ startBoundIncident.Start < a.Time ∧
          ∀ te, startBoundIncident.End = some te → a.Time ≤ te) :=
  getIncidentEvents_characterization startBoundSched 1 startBoundIncident startBoundState
    rfl rfl


/-- First state of the grouping counterexample: one tag `a = b=c`. -/
def gsBugState1 : State := { Alert := "x", Group := [("a", "b=c")] }

/-- Second state of the grouping counterexample: tags `a=b = c` and `d = e`. -/
def gsBugState2 : State := { Alert := "x", Group := [("a=b", "c"), ("d", "e")] }

/-- C9 counterexample: with a tag key containing `=`, the two distinct tag
pairs `(a, b=c)` and `(a=b, c)` both render the group name `{a=b=c}`; the
second `groups[...]=` assignment overwrites the first group, and
`gsBugState1`'s alert key appears in NO group of the result — `GroupSets`
does not partition this input. -/
theorem groupSets_drops_state :
    (GroupSets [gsBugState1, gsBugState2] 1).flatMap Prod.snd = [alertKey gsBugState2] ∧
    ¬ alertKey gsBugState1 = alertKey gsBugState2 ∧
    alertKey gsBugState1 ∈ [gsBugState1, gsBugState2].map alertKey := by
  refine ⟨by decide, by decide, by decide⟩

/-- The well-formedness every live state satisfies (tag keys and alert names
come from the validated OpenTSDB character set): tag keys are distinct and
free of `=`, the alert name is nonempty and free of `{`. -/
def WFState (s : State) : Prop :=
  (s.Group.map Prod.fst).Nodup ∧
  (∀ kv ∈ s.Group, ('=' : Char) ∉ kv.1.data) ∧
  s.Alert ≠ "" ∧ ('{' : Char) ∉ s.Alert.data

instance decWFState (s : State) : Decidable (WFState s) := by
  unfold WFState
  infer_instance

theorem bumpPair_pos (p : String × String) :
    ∀ l, (∀ c ∈ l, 1 ≤ c.2) → ∀ c ∈ bumpPair p l, 1 ≤ c.2
  | [], _, c, hc => by
    simp only [bumpPair, List.mem_singleton] at hc
    simp [hc]
  | q :: tl, hl, c, hc => by
    by_cases hq : q.1 = p
    · simp only [bumpPair, if_pos hq, List.mem_cons] at hc
      rcases hc with hc | hc
      · simp [hc]
      · exact hl c (List.mem_cons_of_mem q hc)
    · simp only [bumpPair, if_neg hq, List.mem_cons] at hc
      rcases hc with hc | hc
      · exact hc ▸ hl q (List.mem_cons_self q tl)
      · exact bumpPair_pos p tl (fun d hd => hl d (List.mem_cons_of_mem q hd)) c hc

theorem bumpPair_keys (p : String × String) :
    ∀ l c, c ∈ bumpPair p l → c.1 = p ∨ ∃ d ∈ l, c.1 = d.1
  | [], c, hc => by
    simp only [bumpPair, List.mem_singleton] at hc
    exact Or.inl (by simp [hc])
  | q :: tl, c, hc => by
    by_cases hq : q.1 = p
    · simp only [bumpPair, if_pos hq, List.mem_cons] at hc
      rcases hc with hc | hc
      · exact Or.inr ⟨q, List.mem_cons_self q tl, by simp [hc, hq]⟩
      · exact Or.inr ⟨c, List.mem_cons_of_mem q hc, rfl⟩
    · simp only [bumpPair, if_neg hq, List.mem_cons] at hc
      rcases hc with hc | hc
      · exact Or.inr ⟨q, List.mem_cons_self q tl, by simp [hc]⟩
      · rcases bumpPair_keys p tl c hc with h | ⟨d, hd, he⟩
        · exact Or.inl h
        · exact Or.inr ⟨d, List.mem_cons_of_mem q hd, he⟩

theorem countPairs_inner (P : String × String → Prop) :
    ∀ (gs : List (String × String)) (acc : List ((String × String) × Nat)),
      (∀ c ∈ acc, 1 ≤ c.2 ∧ P c.1) → (∀ kv ∈ gs, P kv) →
      ∀ c ∈ gs.foldl (fun a kv => bumpPair kv a) acc, 1 ≤ c.2 ∧ P c.1
  | [], acc, hacc, _, c, hc => hacc c hc
  | kv :: tl, acc, hacc, hgs, c, hc => by
    refine countPairs_inner P tl (bumpPair kv acc) ?_
      (fun x hx => hgs x (List.mem_cons_of_mem kv hx)) c hc
    intro d hd
    refine ⟨bumpPair_pos kv acc (fun x hx => (hacc x hx).1) d hd, ?_⟩
    rcases bumpPair_keys kv acc d hd with he | ⟨x, hx, he⟩
    · exact he ▸ hgs kv (List.mem_cons_self kv tl)
    · exact he ▸ (hacc x hx).2

theorem countPairs_outer (P : String × String → Prop) :
    ∀ (l : List State) (acc : List ((String × String) × Nat)),
      (∀ c ∈ acc, 1 ≤ c.2 ∧ P c.1) → (∀ s ∈ l, ∀ kv ∈ s.Group, P kv) →
      ∀ c ∈ l.foldl (fun a s => s.Group.foldl (fun a2 kv => bumpPair kv a2) a) acc,
        1 ≤ c.2 ∧ P c.1
  | [], _, hacc, _, c, hc => hacc c hc
  | s :: tl, acc, hacc, hl, c, hc =>
    countPairs_outer P tl _
      (countPairs_inner P s.Group acc hacc (hl s (List.mem_cons_self s tl)))
      (fun x hx => hl x (List.mem_cons_of_mem s hx)) c hc

/-- Every counting entry has a positive count and its pair occurs in some
unassigned state's tag set. -/
theorem countPairs_spec (unseen : List State) (c : (String × String) × Nat)
    (hc : c ∈ countPairs unseen) : 1 ≤ c.2 ∧ ∃ s ∈ unseen, c.1 ∈ s.Group := by
  refine countPairs_outer (fun p => ∃ s ∈ unseen, p ∈ s.Group) unseen [] ?_ ?_ c hc
  · intro d hd
    simp at hd
  · intro s hs kv hkv
    exact ⟨s, hs, hkv⟩

theorem maxPair_foldl_mem (acc : (String × String) × Nat) :
    ∀ cs : List ((String × String) × Nat), (cs.foldl (fun best c => if best.2 < c.2 then c else best) acc) = acc ∨
      (cs.foldl (fun best c => if best.2 < c.2 then c else best) acc) ∈ cs
  | [] => Or.inl rfl
  | c :: tl => by
    rw [List.foldl_cons]
    rcases maxPair_foldl_mem (if acc.2 < c.2 then c else acc) tl with h | h
    · rw [h]
      by_cases hlt : acc.2 < c.2
      · simp only [if_pos hlt]
        exact Or.inr (List.mem_cons_self c tl)
      · simp only [if_neg hlt]
        exact Or.inl trivial
    · exact Or.inr (List.mem_cons_of_mem c h)

theorem maxPair_foldl_ge (acc : (String × String) × Nat) :
    ∀ cs : List ((String × String) × Nat), acc.2 ≤ (cs.foldl (fun best c => if best.2 < c.2 then c else best) acc).2
  | [] => Nat.le_refl _
  | c :: tl => by
    by_cases hlt : acc.2 < c.2
    · simp only [List.foldl_cons, if_pos hlt]
      exact Nat.le_trans (Nat.le_of_lt hlt) (maxPair_foldl_ge c tl)
    · simp only [List.foldl_cons, if_neg hlt]
      exact maxPair_foldl_ge acc tl

/-- When there are counting entries, the selected pair is one of them and its
count is positive. -/
theorem maxPair_spec (cs : List ((String × String) × Nat)) (hne : cs ≠ [])
    (hpos : ∀ c ∈ cs, 1 ≤ c.2) : maxPair cs ∈ cs ∧ 1 ≤ (maxPair cs).2 := by
  cases cs with
  | nil => exact absurd rfl hne
  | cons c tl =>
    have hc1 : 1 ≤ c.2 := hpos c (List.mem_cons_self c tl)
    have hstep : (if ((("", ""), 0) : (String × String) × Nat).2 < c.2 then c
        else ((("", ""), 0) : (String × String) × Nat)) = c := by
      simp only [if_pos (Nat.lt_of_lt_of_le Nat.zero_lt_one hc1)]
    constructor
    · unfold maxPair
      rw [List.foldl_cons, hstep]
      rcases maxPair_foldl_mem c tl with h | h
      · rw [h]
        exact List.mem_cons_self c tl
      · exact List.mem_cons_of_mem c h
    · unfold maxPair
      rw [List.foldl_cons, hstep]
      exact Nat.le_trans hc1 (maxPair_foldl_ge c tl)

theorem lookup_of_mem_nodup {β : Type} :
    ∀ (l : List (String × β)) (k : String) (v : β),
      (k, v) ∈ l → (l.map Prod.fst).Nodup → List.lookup k l = some v
  | [], k, v, hm, _ => by simp at hm
  | (k2, v2) :: tl, k, v, hm, hnd => by
    rcases List.mem_cons.mp hm with he | htl
    · obtain ⟨h1, h2⟩ := Prod.mk.injEq .. ▸ he
      subst h1
      subst h2
      simp [List.lookup_cons]
    · by_cases hk : k = k2
      · subst hk
        exfalso
        have : k ∈ tl.map Prod.fst := List.mem_map_of_mem Prod.fst htl
        simp only [List.map_cons, List.nodup_cons] at hnd
        exact hnd.1 this
      · have hb : (k == k2) = false := by simp [hk]
        simp only [List.lookup_cons, hb]
        exact lookup_of_mem_nodup tl k v htl
          (by simpa using (List.nodup_cons.mp (by simpa using hnd)).2)

theorem setKey_fresh {β : Type} (k : String) (v : β) :
    ∀ l : List (String × β), (∀ g ∈ l, g.1 ≠ k) → setKey k v l = l ++ [(k, v)]
  | [], _ => rfl
  | g :: tl, h => by
    rw [show setKey k v (g :: tl) = if g.1 = k then (k, v) :: tl else g :: setKey k v tl
      from rfl]
    rw [if_neg (h g (List.mem_cons_self g tl))]
    rw [setKey_fresh k v tl (fun x hx => h x (List.mem_cons_of_mem g hx))]
    rfl


theorem chars_split (c : Char) :
    ∀ (l1 l2 r1 r2 : List Char), c ∉ l1 → c ∉ l2 →
      l1 ++ c :: r1 = l2 ++ c :: r2 → l1 = l2 ∧ r1 = r2
  | [], [], r1, r2, _, _, h => by
    simp only [List.nil_append, List.cons.injEq] at h
    exact ⟨rfl, h.2⟩
  | [], x :: l2, r1, r2, _, h2, h => by
    simp only [List.nil_append, List.cons_append, List.cons.injEq] at h
    exact absurd (h.1 ▸ List.mem_cons_self x l2) h2
  | x :: l1, [], r1, r2, h1, _, h => by
    simp only [List.cons_append, List.nil_append, List.cons.injEq] at h
    exact absurd (h.1.symm ▸ List.mem_cons_self x l1) h1
  | x :: l1, y :: l2, r1, r2, h1, h2, h => by
    simp only [List.cons_append, List.cons.injEq] at h
    obtain ⟨hxy, hrest⟩ := h
    obtain ⟨hl, hr⟩ := chars_split c l1 l2 r1 r2
      (fun hc => h1 (List.mem_cons_of_mem x hc))
      (fun hc => h2 (List.mem_cons_of_mem y hc)) hrest
    exact ⟨by rw [hxy, hl], hr⟩

/-- `{k=v}` rendering is injective on pairs whose keys contain no `=`. -/
theorem pairName_inj (p q : String × String)
    (hp : ('=' : Char) ∉ p.1.data) (hq : ('=' : Char) ∉ q.1.data)
    (h : pairName p = pairName q) : p = q := by
  have hd := congrArg String.data h
  simp only [pairName, String.data_append, List.append_assoc, List.cons_append,
    List.nil_append, List.singleton_append, List.cons.injEq, true_and] at hd
  obtain ⟨hk, hv⟩ := chars_split '=' p.1.data q.1.data (p.2.data ++ ['}'])
    (q.2.data ++ ['}']) hp hq hd
  have hveq : p.2.data = q.2.data := List.append_cancel_right hv
  obtain ⟨k1, v1⟩ := p
  obtain ⟨k2, v2⟩ := q
  simp only [Prod.mk.injEq]
  exact ⟨String.ext hk, String.ext hveq⟩

/-- A group name `{k=v}` is never a string without `{`. -/
theorem pairName_ne_of_no_brace (p : String × String) (a : String)
    (ha : ('{' : Char) ∉ a.data) : pairName p ≠ a := by
  intro h
  apply ha
  rw [← h]
  simp [pairName, String.data_append]

/-- An alert key `alert{...}` never renders a `{k=v}` group name when the
alert name is nonempty and brace-free. -/
theorem pairName_ne_alertKey (p : String × String) (s : State)
    (hne : s.Alert ≠ "") (hnb : ('{' : Char) ∉ s.Alert.data) :
    pairName p ≠ alertKey s := by
  intro h
  have hd := congrArg String.data h
  simp only [pairName, alertKey, String.data_append, List.append_assoc,
    List.cons_append, List.nil_append, List.singleton_append] at hd
  cases hA : s.Alert.data with
  | nil => exact hne (String.ext (by simp [hA]))
  | cons c tl =>
    rw [hA] at hd
    simp only [List.cons_append, List.cons.injEq] at hd
    apply hnb
    rw [hA, hd.1]
    exact List.mem_cons_self _ _

/-- An alert key always contains `{`; a brace-free string never equals one. -/
theorem alert_ne_alertKey (a : String) (s : State)
    (ha : ('{' : Char) ∉ a.data) : a ≠ alertKey s := by
  intro h
  apply ha
  rw [h]
  simp [alertKey, String.data_append]


theorem length_filter_not_lt (p : State → Bool) :
    ∀ l : List State, ∀ x ∈ l, p x = true →
      (l.filter (fun y => !(p y))).length < l.length
  | h :: tl, x, hx, hpx => by
    by_cases hph : p h = true
    · rw [List.filter_cons, if_neg (by simp [hph])]
      exact Nat.lt_succ_of_le (List.length_filter_le _ tl)
    · rcases List.mem_cons.mp hx with he | htl
      · exact absurd (he ▸ hpx) hph
      · rw [List.filter_cons, if_pos (by simp [hph])]
        simpa using length_filter_not_lt p tl x htl hpx

/-- Invariant of the common-tag cover loop: the remaining states are a
sub-collection of the input, group names stay distinct `{k=v}` renderings,
and the alert keys in emitted groups together with the remaining states'
keys are a permutation of what the loop started with. -/
theorem gsLoop_spec (minGroup : Int) :
    ∀ (fuel : Nat) (unseen : List State) (groups : List (String × List AlertKey)),
      unseen.length < fuel →
      (∀ s ∈ unseen, WFState s) →
      ((groups.map Prod.fst).Nodup) →
      (∀ g ∈ groups, ∃ p : String × String, g.1 = pairName p) →
      (∀ g ∈ groups, ∀ s ∈ unseen, ∀ kv ∈ s.Group, g.1 ≠ pairName kv) →
      ((gsLoop minGroup fuel unseen groups).1.Sublist unseen) ∧
      (((gsLoop minGroup fuel unseen groups).2.map Prod.fst).Nodup) ∧
      (∀ g ∈ (gsLoop minGroup fuel unseen groups).2, ∃ p : String × String, g.1 = pairName p) ∧
      ((((gsLoop minGroup fuel unseen groups).2.flatMap Prod.snd) ++
        ((gsLoop minGroup fuel unseen groups).1.map alertKey)).Perm
        ((groups.flatMap Prod.snd) ++ (unseen.map alertKey))) := by
  intro fuel
  induction fuel with
  | zero =>
    intro unseen groups hlen
    exact absurd hlen (Nat.not_lt_zero _)
  | succ fuel ih =>
    intro unseen groups hlen hwf hgnd hshape hfresh
    by_cases hcs : (countPairs unseen).isEmpty
    · simp only [gsLoop, hcs, if_true]
      exact ⟨List.Sublist.refl _, hgnd, hshape, List.Perm.refl _⟩
    · have hne : countPairs unseen ≠ [] := by
        intro h
        rw [h] at hcs
        exact hcs rfl
      by_cases hmin : ((maxPair (countPairs unseen)).2 : Int) < minGroup
      · simp only [gsLoop, hcs, Bool.false_eq_true, if_false, if_pos hmin]
        exact ⟨List.Sublist.refl _, hgnd, hshape, List.Perm.refl _⟩
      · have hmax := maxPair_spec (countPairs unseen) hne
          (fun c hc => (countPairs_spec unseen c hc).1)
        obtain ⟨s0, hs0, hmem0⟩ := (countPairs_spec unseen _ hmax.1).2
        have hwf0 := hwf s0 hs0
        have hlook : tagGet s0.Group (maxPair (countPairs unseen)).1.1 =
            (maxPair (countPairs unseen)).1.2 := by
          unfold tagGet
          rw [lookup_of_mem_nodup s0.Group _ _ (by simpa using hmem0) hwf0.1]
          rfl
        have hs0grp : s0 ∈ unseen.filter
            (fun s => tagGet s.Group (maxPair (countPairs unseen)).1.1 ==
              (maxPair (countPairs unseen)).1.2) :=
          List.mem_filter.mpr ⟨hs0, by simp [hlook]⟩
        have hgrplen : (unseen.filter
            (fun s => tagGet s.Group (maxPair (countPairs unseen)).1.1 ==
              (maxPair (countPairs unseen)).1.2)).length > 0 :=
          List.length_pos.mpr (List.ne_nil_of_mem hs0grp)
        have hfreshname : ∀ g ∈ groups, g.1 ≠ pairName (maxPair (countPairs unseen)).1 :=
          fun g hg => hfresh g hg s0 hs0 _ hmem0
        have hrest_sub : (unseen.filter
            (fun s => !(tagGet s.Group (maxPair (countPairs unseen)).1.1 ==
              (maxPair (countPairs unseen)).1.2))).Sublist unseen :=
          List.filter_sublist unseen
        have hrestlen : (unseen.filter
            (fun s => !(tagGet s.Group (maxPair (countPairs unseen)).1.1 ==
              (maxPair (countPairs unseen)).1.2))).length < fuel := by
          have h1 := length_filter_not_lt
            (fun s => tagGet s.Group (maxPair (countPairs unseen)).1.1 ==
              (maxPair (countPairs unseen)).1.2) unseen s0 hs0 (by simp [hlook])
          exact Nat.lt_of_lt_of_le h1 (Nat.lt_succ_iff.mp hlen)
        have hnd1 : (((groups ++ [(pairName (maxPair (countPairs unseen)).1,
            (unseen.filter (fun s => tagGet s.Group (maxPair (countPairs unseen)).1.1 ==
              (maxPair (countPairs unseen)).1.2)).map alertKey)]).map Prod.fst).Nodup) := by
          rw [List.map_append, List.nodup_append]
          refine ⟨hgnd, by simp, ?_⟩
          intro a ha hb
          simp only [List.map_cons, List.map_nil, List.mem_singleton] at hb
          obtain ⟨g, hg, hga⟩ := List.mem_map.mp ha
          exact hfreshname g hg (hga.symm ▸ hb ▸ rfl)
        have hshape1 : ∀ g ∈ (groups ++ [(pairName (maxPair (countPairs unseen)).1,
            (unseen.filter (fun s => tagGet s.Group (maxPair (countPairs unseen)).1.1 ==
              (maxPair (countPairs unseen)).1.2)).map alertKey)]),
            ∃ p : String × String, g.1 = pairName p := by
          intro g hg
          rcases List.mem_append.mp hg with h | h
          · exact hshape g h
          · simp only [List.mem_singleton] at h
            exact ⟨(maxPair (countPairs unseen)).1, by rw [h]⟩
        have hfresh1 : ∀ g ∈ (groups ++ [(pairName (maxPair (countPairs unseen)).1,
            (unseen.filter (fun s => tagGet s.Group (maxPair (countPairs unseen)).1.1 ==
              (maxPair (countPairs unseen)).1.2)).map alertKey)]),
            ∀ s ∈ (unseen.filter
              (fun s => !(tagGet s.Group (maxPair (countPairs unseen)).1.1 ==
                (maxPair (countPairs unseen)).1.2))),
            ∀ kv ∈ s.Group, g.1 ≠ pairName kv := by
          intro g hg s hs kv hkv
          have hs_unseen : s ∈ unseen := (List.mem_filter.mp hs).1
          rcases List.mem_append.mp hg with h | h
          · exact hfresh g h s hs_unseen kv hkv
          · simp only [List.mem_singleton] at h
            rw [h]
            intro heq
            have hkeq : kv = (maxPair (countPairs unseen)).1 := by
              refine (pairName_inj _ _ ?_ ?_ heq.symm)
              · exact (hwf s hs_unseen).2.1 kv hkv
              · exact hwf0.2.1 _ hmem0
            have : tagGet s.Group (maxPair (countPairs unseen)).1.1 =
                (maxPair (countPairs unseen)).1.2 := by
              rw [← hkeq]
              unfold tagGet
              rw [lookup_of_mem_nodup s.Group kv.1 kv.2 (by simpa using hkv)
                (hwf s hs_unseen).1]
              rfl
            have hsp := (List.mem_filter.mp hs).2
            rw [this] at hsp
            simp at hsp
        obtain ⟨ihsub, ihnd, ihshape, ihperm⟩ := ih
          (unseen.filter (fun s => !(tagGet s.Group (maxPair (countPairs unseen)).1.1 ==
            (maxPair (countPairs unseen)).1.2)))
          (groups ++ [(pairName (maxPair (countPairs unseen)).1,
            (unseen.filter (fun s => tagGet s.Group (maxPair (countPairs unseen)).1.1 ==
              (maxPair (countPairs unseen)).1.2)).map alertKey)])
          hrestlen
          (fun s hs => hwf s (List.mem_filter.mp hs).1)
          hnd1 hshape1 hfresh1
        have hstep : gsLoop minGroup (fuel + 1) unseen groups =
            gsLoop minGroup fuel
              (unseen.filter (fun s => !(tagGet s.Group (maxPair (countPairs unseen)).1.1 ==
                (maxPair (countPairs unseen)).1.2)))
              (groups ++ [(pairName (maxPair (countPairs unseen)).1,
                (unseen.filter (fun s => tagGet s.Group (maxPair (countPairs unseen)).1.1 ==
                  (maxPair (countPairs unseen)).1.2)).map alertKey)]) := by
          simp only [gsLoop, hcs, Bool.false_eq_true, if_false, if_neg hmin,
            if_pos hgrplen]
          rw [setKey_fresh _ _ groups hfreshname]
        rw [hstep]
        refine ⟨ihsub.trans hrest_sub, ihnd, ihshape, ?_⟩
        refine ihperm.trans ?_
        rw [List.flatMap_append]
        have hsingle : ([(pairName (maxPair (countPairs unseen)).1,
            (unseen.filter (fun s => tagGet s.Group (maxPair (countPairs unseen)).1.1 ==
              (maxPair (countPairs unseen)).1.2)).map alertKey)].flatMap Prod.snd) =
            (unseen.filter (fun s => tagGet s.Group (maxPair (countPairs unseen)).1.1 ==
              (maxPair (countPairs unseen)).1.2)).map alertKey := by
          simp
        rw [hsingle, List.append_assoc]
        refine List.Perm.append_left _ ?_
        have hpart := List.filter_append_perm
          (fun s => tagGet s.Group (maxPair (countPairs unseen)).1.1 ==
            (maxPair (countPairs unseen)).1.2) unseen
        have := hpart.map alertKey
        rw [List.map_append] at this
        exact this


theorem lookup_bumpList (k : String) (v : AlertKey) :
    ∀ (l : List (String × List AlertKey)) (a : String),
      List.lookup a (bumpList k v l) =
        if a = k then some (((List.lookup k l).getD []) ++ [v]) else List.lookup a l
  | [], a => by
    by_cases hak : a = k
    · subst hak
      simp [bumpList, List.lookup_cons]
    · have hb : (a == k) = false := by simp [hak]
      simp [bumpList, List.lookup_cons, hb, hak]
  | ⟨k2, v2⟩ :: tl, a => by
    by_cases hq : k2 = k
    · subst hq
      have h1 : bumpList k2 v ((k2, v2) :: tl) = (k2, v2 ++ [v]) :: tl := by
        simp [bumpList]
      rw [h1]
      by_cases hak : a = k2
      · subst hak
        simp [List.lookup_cons]
      · have hb : (a == k2) = false := by simp [hak]
        simp [List.lookup_cons, hb, hak]
    · have h1 : bumpList k v ((k2, v2) :: tl) = (k2, v2) :: bumpList k v tl := by
        simp [bumpList, hq]
      rw [h1]
      by_cases haq : a = k2
      · subst haq
        simp [List.lookup_cons, hq]
      · have hb : (a == k2) = false := by simp [haq]
        simp only [List.lookup_cons, hb]
        rw [lookup_bumpList k v tl a]
        by_cases hak : a = k
        · subst hak
          simp [List.lookup_cons, hb]
        · simp [hak]

theorem keys_bumpList (k : String) (v : AlertKey) :
    ∀ l : List (String × List AlertKey),
      (bumpList k v l).map Prod.fst =
        if k ∈ l.map Prod.fst then l.map Prod.fst else l.map Prod.fst ++ [k]
  | [] => by simp [bumpList]
  | q :: tl => by
    by_cases hq : q.1 = k
    · rw [show bumpList k v (q :: tl) = (q.1, q.2 ++ [v]) :: tl from by
        simp [bumpList, hq]]
      rw [if_pos (by simp [hq])]
      simp
    · rw [show bumpList k v (q :: tl) = q :: bumpList k v tl from by
        simp [bumpList, hq]]
      simp only [List.map_cons]
      rw [keys_bumpList k v tl]
      by_cases hmem : k ∈ tl.map Prod.fst
      · rw [if_pos hmem, if_pos (by simp [hmem])]
      · rw [if_neg hmem, if_neg (by
          simp only [List.mem_cons]
          rintro (h | h)
          · exact hq h.symm
          · exact hmem h)]
        simp


theorem gba_fold :
    ∀ (l : List State) (acc : List (String × List AlertKey)),
      ((acc.map Prod.fst).Nodup) →
      (((l.foldl (fun a s => bumpList s.Alert (alertKey s) a) acc).map Prod.fst).Nodup) ∧
      (∀ a : String,
        List.lookup a (l.foldl (fun a2 s => bumpList s.Alert (alertKey s) a2) acc) =
          match List.lookup a acc with
          | some xs => some (xs ++ (l.filter (fun s => s.Alert == a)).map alertKey)
          | none =>
            if l.any (fun s => s.Alert == a) then
              some ((l.filter (fun s => s.Alert == a)).map alertKey)
            else none) ∧
      (∀ a ∈ (l.foldl (fun a2 s => bumpList s.Alert (alertKey s) a2) acc).map Prod.fst,
        a ∈ acc.map Prod.fst ∨ ∃ s ∈ l, s.Alert = a)
  | [], acc, hnd => by
    refine ⟨hnd, ?_, ?_⟩
    · intro a
      cases h : List.lookup a acc with
      | none => simp [h]
      | some xs => simp [h]
    · intro a ha
      exact Or.inl ha
  | s0 :: tl, acc, hnd => by
    have hnd' : ((bumpList s0.Alert (alertKey s0) acc).map Prod.fst).Nodup := by
      rw [keys_bumpList]
      by_cases hmem : s0.Alert ∈ acc.map Prod.fst
      · rw [if_pos hmem]
        exact hnd
      · rw [if_neg hmem, List.nodup_append]
        refine ⟨hnd, List.nodup_singleton _, ?_⟩
        intro x hx hx2
        simp only [List.mem_singleton] at hx2
        exact hmem (hx2 ▸ hx)
    obtain ⟨ihnd, ihlk, ihkeys⟩ := gba_fold tl (bumpList s0.Alert (alertKey s0) acc) hnd'
    refine ⟨ihnd, ?_, ?_⟩
    · intro a
      rw [List.foldl_cons, ihlk a, lookup_bumpList]
      by_cases has : a = s0.Alert
      · subst has
        cases hacc : List.lookup s0.Alert acc with
        | none => simp [hacc, List.filter_cons, List.any_cons]
        | some xs => simp [hacc, List.filter_cons, List.any_cons, List.append_assoc]
      · have hb : (s0.Alert == a) = false := by
          simp only [beq_eq_false_iff_ne, ne_eq]
          exact fun h => has h.symm
        simp only [List.filter_cons, List.any_cons, hb, Bool.false_or,
          Bool.false_eq_true, if_false, if_neg has]
    · intro a ha
      rcases ihkeys a ha with h | ⟨s, hs, he⟩
      · rw [keys_bumpList] at h
        by_cases hmem : s0.Alert ∈ acc.map Prod.fst
        · rw [if_pos hmem] at h
          exact Or.inl h
        · rw [if_neg hmem] at h
          rcases List.mem_append.mp h with h2 | h2
          · exact Or.inl h2
          · simp only [List.mem_singleton] at h2
            exact Or.inr ⟨s0, List.mem_cons_self _ _, h2.symm⟩
      · exact Or.inr ⟨s, List.mem_cons_of_mem s0 hs, he⟩


theorem gba_nodup (unseen : List State) :
    ((groupedByAlert unseen).map Prod.fst).Nodup :=
  (gba_fold unseen [] (by simp)).1

theorem gba_lookup (unseen : List State) (a : String) :
    List.lookup a (groupedByAlert unseen) =
      if unseen.any (fun s => s.Alert == a) then
        some ((unseen.filter (fun s => s.Alert == a)).map alertKey)
      else none := by
  have h := (gba_fold unseen [] (by simp)).2.1 a
  simpa [groupedByAlert] using h

theorem gba_keys_from (unseen : List State) :
    ∀ a ∈ (groupedByAlert unseen).map Prod.fst, ∃ s ∈ unseen, s.Alert = a := by
  intro a ha
  rcases (gba_fold unseen [] (by simp)).2.2 a ha with h | h
  · simp at h
  · exact h

theorem gba_entry (unseen : List State) (e : String × List AlertKey)
    (he : e ∈ groupedByAlert unseen) :
    e.2 = (unseen.filter (fun s => s.Alert == e.1)).map alertKey := by
  have hl := lookup_of_mem_nodup (groupedByAlert unseen) e.1 e.2
    (by simpa using he) (gba_nodup unseen)
  rw [gba_lookup] at hl
  by_cases hany : unseen.any (fun s => s.Alert == e.1) = true
  · rw [if_pos hany] at hl
    exact (Option.some.injEq .. ▸ hl).symm
  · rw [if_neg hany] at hl
    cases hl

theorem foldl_groups2 (minGroup : Int) :
    ∀ (entries acc : List (String × List AlertKey)),
      ((entries.map Prod.fst).Nodup) →
      (∀ e ∈ entries, ∀ g ∈ acc, g.1 ≠ e.1) →
      entries.foldl
        (fun acc2 e => if minGroup ≤ (e.2.length : Int) then setKey e.1 e.2 acc2 else acc2)
        acc =
      acc ++ entries.filter (fun e => decide (minGroup ≤ (e.2.length : Int)))
  | [], acc, _, _ => by simp
  | e0 :: tl, acc, hnd, hfr => by
    have hndtl : ((tl.map Prod.fst).Nodup) := by
      simp only [List.map_cons, List.nodup_cons] at hnd
      exact hnd.2
    have hnotin : e0.1 ∉ tl.map Prod.fst := by
      simp only [List.map_cons, List.nodup_cons] at hnd
      exact hnd.1
    rw [List.foldl_cons, List.filter_cons]
    by_cases hp : minGroup ≤ (e0.2.length : Int)
    · rw [if_pos hp, if_pos (by simpa using hp)]
      rw [setKey_fresh e0.1 e0.2 acc (fun g hg => hfr e0 (List.mem_cons_self _ _) g hg)]
      rw [foldl_groups2 minGroup tl (acc ++ [(e0.1, e0.2)]) hndtl ?_]
      · simp
      · intro e he g hg
        rcases List.mem_append.mp hg with h | h
        · exact hfr e (List.mem_cons_of_mem e0 he) g h
        · simp only [List.mem_singleton] at h
          rw [h]
          intro hcontra
          exact hnotin (hcontra ▸ List.mem_map_of_mem Prod.fst he)
    · rw [if_neg hp, if_neg (by simpa using hp)]
      exact foldl_groups2 minGroup tl acc hndtl
        (fun e he g hg => hfr e (List.mem_cons_of_mem e0 he) g hg)

theorem foldl_singles (minGroup : Int) (gba : List (String × List AlertKey)) :
    ∀ (l : List State) (acc : List (String × List AlertKey)),
      ((l.map alertKey).Nodup) →
      (∀ s ∈ l, ∀ g ∈ acc, g.1 ≠ alertKey s) →
      l.foldl
        (fun acc2 s =>
          if minGroup ≤ (((gba.lookup s.Alert).getD []).length : Int) then acc2
          else setKey (alertKey s) [alertKey s] acc2)
        acc =
      acc ++ (l.filter (fun s =>
          !(decide (minGroup ≤ (((gba.lookup s.Alert).getD []).length : Int))))).map
        (fun s => (alertKey s, [alertKey s]))
  | [], acc, _, _ => by simp
  | s0 :: tl, acc, hnd, hfr => by
    have hndtl : ((tl.map alertKey).Nodup) := by
      simp only [List.map_cons, List.nodup_cons] at hnd
      exact hnd.2
    have hnotin : alertKey s0 ∉ tl.map alertKey := by
      simp only [List.map_cons, List.nodup_cons] at hnd
      exact hnd.1
    rw [List.foldl_cons, List.filter_cons]
    by_cases hp : minGroup ≤ (((gba.lookup s0.Alert).getD []).length : Int)
    · rw [if_pos hp, if_neg (by simpa using hp)]
      exact foldl_singles minGroup gba tl acc hndtl
        (fun s hs g hg => hfr s (List.mem_cons_of_mem s0 hs) g hg)
    · rw [if_neg hp, if_pos (by simpa using hp)]
      rw [setKey_fresh (alertKey s0) [alertKey s0] acc
        (fun g hg => hfr s0 (List.mem_cons_self _ _) g hg)]
      rw [foldl_singles minGroup gba tl (acc ++ [(alertKey s0, [alertKey s0])]) hndtl ?_]
      · simp
      · intro s hs g hg
        rcases List.mem_append.mp hg with h | h
        · exact hfr s (List.mem_cons_of_mem s0 hs) g h
        · simp only [List.mem_singleton] at h
          rw [h]
          intro hcontra
          refine hnotin ?_
          rw [show alertKey s0 = alertKey s from hcontra]
          exact List.mem_map_of_mem alertKey hs

theorem flatMap_congr_mem {α β : Type} (f g : α → List β) :
    ∀ l : List α, (∀ x ∈ l, f x = g x) → l.flatMap f = l.flatMap g
  | [], _ => rfl
  | x :: tl, h => by
    rw [List.flatMap_cons, List.flatMap_cons, h x (List.mem_cons_self _ _),
      flatMap_congr_mem f g tl (fun y hy => h y (List.mem_cons_of_mem x hy))]

theorem buckets_perm (key : State → String) :
    ∀ (ks : List String) (l : List State),
      ks.Nodup → (∀ s ∈ l, key s ∈ ks) →
      (ks.flatMap (fun a => l.filter (fun s => key s == a))).Perm l
  | [], l, _, hkey => by
    cases l with
    | nil => simp
    | cons s tl => exact absurd (hkey s (List.mem_cons_self _ _)) (by simp)
  | a :: ks, l, hnd, hkey => by
    rw [List.flatMap_cons]
    have hndtl : ks.Nodup := (List.nodup_cons.mp hnd).2
    have hanotin : a ∉ ks := (List.nodup_cons.mp hnd).1
    have hcong : ks.flatMap (fun b => l.filter (fun s => key s == b)) =
        ks.flatMap (fun b => (l.filter (fun s => !(key s == a))).filter
          (fun s => key s == b)) := by
      refine flatMap_congr_mem _ _ ks ?_
      intro b hb
      rw [List.filter_filter]
      refine (List.filter_congr ?_).symm
      intro s _
      by_cases hsb : key s = b
      · have h1 : (key s == b) = true := by simp [hsb]
        have h2 : (key s == a) = false := by
          simp only [beq_eq_false_iff_ne, ne_eq, hsb]
          intro hba
          exact hanotin (hba ▸ hb)
        rw [h1, h2]
        rfl
      · have h1 : (key s == b) = false := by simp [hsb]
        rw [h1]
        simp
    rw [hcong]
    have hih := buckets_perm key ks (l.filter (fun s => !(key s == a))) hndtl ?_
    · exact (List.Perm.append_left _ hih).trans
        (List.filter_append_perm (fun s => key s == a) l)
    · intro s hs
      obtain ⟨hsl, hsp⟩ := List.mem_filter.mp hs
      rcases List.mem_cons.mp (hkey s hsl) with h | h
      · exfalso
        rw [show (key s == a) = true from by simp [h]] at hsp
        simp at hsp
      · exact h


theorem flatMap_pair_singles :
    ∀ l : List State,
      ((l.map (fun s => (alertKey s, [alertKey s]))).flatMap Prod.snd) = l.map alertKey
  | [] => rfl
  | s :: tl => by
    simp [flatMap_pair_singles tl]

theorem flatMap_filter_keys (big : List State) :
    ∀ l : List (String × List AlertKey),
      l.flatMap (fun e => (big.filter (fun t => t.Alert == e.1)).map alertKey) =
      ((l.map Prod.fst).flatMap (fun a => big.filter (fun t => t.Alert == a))).map alertKey
  | [] => rfl
  | e :: tl => by
    simp only [List.flatMap_cons, List.map_cons, List.map_append,
      flatMap_filter_keys big tl]

theorem mem_of_lookup_eq_some {β : Type} :
    ∀ (l : List (String × β)) (a : String) (v : β),
      List.lookup a l = some v → (a, v) ∈ l
  | [], a, v, h => by simp [List.lookup] at h
  | ⟨k, b⟩ :: tl, a, v, h => by
    rw [List.lookup_cons] at h
    cases hk : (a == k) with
    | true =>
      rw [hk] at h
      have hak : a = k := by simpa using hk
      have hbv : b = v := by simpa using h
      rw [hak, hbv]
      exact List.mem_cons_self _ _
    | false =>
      rw [hk] at h
      exact List.mem_cons_of_mem _ (mem_of_lookup_eq_some tl a v h)

/-- Phases 3 and 4 of `GroupSets` preserve the alert-key multiset: the output
groups carry exactly the input groups' keys plus the remaining states' keys,
provided every remaining state is well-formed, the remaining keys are
distinct, and every pre-existing group is named `\x7bk=v\x7d`. -/
theorem phase34_perm (unseen : List State) (groups : List (String × List AlertKey))
    (minGroup : Int)
    (hwf : ∀ s ∈ unseen, WFState s)
    (hnd : (unseen.map alertKey).Nodup)
    (hshape : ∀ g ∈ groups, ∃ p : String × String, g.1 = pairName p) :
    ((phase34 unseen groups minGroup).flatMap Prod.snd).Perm
      ((groups.flatMap Prod.snd) ++ (unseen.map alertKey)) := by
  have hgfr : ∀ e ∈ groupedByAlert unseen, ∀ g ∈ groups, g.1 ≠ e.1 := by
    intro e he g hg
    obtain ⟨p, hp⟩ := hshape g hg
    obtain ⟨s, hs, hsa⟩ := gba_keys_from unseen e.1 (List.mem_map_of_mem Prod.fst he)
    rw [hp]
    exact pairName_ne_of_no_brace p e.1 (hsa ▸ (hwf s hs).2.2.2)
  have hg2 : (groupedByAlert unseen).foldl
      (fun acc e => if minGroup ≤ (e.2.length : Int) then setKey e.1 e.2 acc else acc)
      groups =
      groups ++ (groupedByAlert unseen).filter
        (fun e => decide (minGroup ≤ (e.2.length : Int))) :=
    foldl_groups2 minGroup (groupedByAlert unseen) groups (gba_nodup unseen) hgfr
  have hsfr : ∀ s ∈ unseen, ∀ g ∈ (groups ++ (groupedByAlert unseen).filter
      (fun e => decide (minGroup ≤ (e.2.length : Int)))), g.1 ≠ alertKey s := by
    intro s hs g hg
    rcases List.mem_append.mp hg with h | h
    · obtain ⟨p, hp⟩ := hshape g h
      rw [hp]
      exact pairName_ne_alertKey p s (hwf s hs).2.2.1 (hwf s hs).2.2.2
    · have hmem : g ∈ groupedByAlert unseen := List.mem_of_mem_filter h
      obtain ⟨s2, hs2, hs2a⟩ := gba_keys_from unseen g.1 (List.mem_map_of_mem Prod.fst hmem)
      exact alert_ne_alertKey g.1 s (hs2a ▸ (hwf s2 hs2).2.2.2)
  have hsingles := foldl_singles minGroup (groupedByAlert unseen) unseen
    (groups ++ (groupedByAlert unseen).filter
      (fun e => decide (minGroup ≤ (e.2.length : Int)))) hnd hsfr
  have hphase : (phase34 unseen groups minGroup).flatMap Prod.snd =
      (groups.flatMap Prod.snd) ++
      ((((groupedByAlert unseen).filter
        (fun e => decide (minGroup ≤ (e.2.length : Int)))).flatMap Prod.snd) ++
      ((unseen.filter (fun s =>
        !(decide (minGroup ≤
          ((((groupedByAlert unseen).lookup s.Alert).getD []).length : Int))))).map alertKey)) := by
    simp only [phase34]
    rw [hg2, hsingles]
    rw [List.flatMap_append, List.flatMap_append, flatMap_pair_singles, List.append_assoc]
  have hlookup_len : ∀ s ∈ unseen,
      (((groupedByAlert unseen).lookup s.Alert).getD []).length =
        (unseen.filter (fun t => t.Alert == s.Alert)).length := by
    intro s hs
    rw [gba_lookup]
    rw [if_pos (List.any_eq_true.mpr ⟨s, hs, by simp⟩)]
    simp
  have hsmall_eq : unseen.filter (fun s =>
        !(decide (minGroup ≤
          ((((groupedByAlert unseen).lookup s.Alert).getD []).length : Int)))) =
      unseen.filter (fun s =>
        !(decide (minGroup ≤
          ((unseen.filter (fun t => t.Alert == s.Alert)).length : Int)))) := by
    refine List.filter_congr ?_
    intro s hs
    rw [hlookup_len s hs]
  have hBentry : ∀ e ∈ (groupedByAlert unseen).filter
      (fun e => decide (minGroup ≤ (e.2.length : Int))),
      e.2 = ((unseen.filter (fun s =>
          decide (minGroup ≤
            ((unseen.filter (fun t => t.Alert == s.Alert)).length : Int)))).filter
        (fun t => t.Alert == e.1)).map alertKey := by
    intro e he
    have hgba : e ∈ groupedByAlert unseen := (List.mem_filter.mp he).1
    have hbig : decide (minGroup ≤ (e.2.length : Int)) = true := by
      simpa using (List.mem_filter.mp he).2
    rw [gba_entry unseen e hgba]
    refine congrArg (List.map alertKey) ?_
    rw [List.filter_filter]
    refine List.filter_congr ?_
    intro t ht
    cases hta : (t.Alert == e.1) with
    | false => rw [Bool.false_and]
    | true =>
      have htae : t.Alert = e.1 := by simpa using hta
      have hlen : (unseen.filter (fun u => u.Alert == t.Alert)).length = e.2.length := by
        rw [htae, gba_entry unseen e hgba, List.length_map]
      rw [Bool.true_and, hlen, hbig]
  have hBperm : (((groupedByAlert unseen).filter
      (fun e => decide (minGroup ≤ (e.2.length : Int)))).flatMap Prod.snd).Perm
      ((unseen.filter (fun s =>
        decide (minGroup ≤
          ((unseen.filter (fun t => t.Alert == s.Alert)).length : Int)))).map alertKey) := by
    rw [flatMap_congr_mem Prod.snd
      (fun e => ((unseen.filter (fun s =>
          decide (minGroup ≤
            ((unseen.filter (fun t => t.Alert == s.Alert)).length : Int)))).filter
        (fun t => t.Alert == e.1)).map alertKey)
      _ hBentry]
    rw [flatMap_filter_keys]
    refine List.Perm.map alertKey ?_
    refine buckets_perm (fun s => s.Alert) _ _ ?_ ?_
    · exact List.Nodup.sublist ((List.filter_sublist _).map Prod.fst) (gba_nodup unseen)
    · intro s hs
      obtain ⟨hsu, hsbig⟩ := List.mem_filter.mp hs
      have hlk : List.lookup s.Alert (groupedByAlert unseen) =
          some ((unseen.filter (fun t => t.Alert == s.Alert)).map alertKey) := by
        rw [gba_lookup, if_pos (List.any_eq_true.mpr ⟨s, hsu, by simp⟩)]
      have hmem : (s.Alert, (unseen.filter (fun t => t.Alert == s.Alert)).map alertKey) ∈
          groupedByAlert unseen := mem_of_lookup_eq_some _ _ _ hlk
      have hmemf : (s.Alert, (unseen.filter (fun t => t.Alert == s.Alert)).map alertKey) ∈
          (groupedByAlert unseen).filter
            (fun e => decide (minGroup ≤ (e.2.length : Int))) := by
        refine List.mem_filter.mpr ⟨hmem, ?_⟩
        simpa using hsbig
      exact List.mem_map_of_mem Prod.fst hmemf
  rw [hphase, hsmall_eq]
  refine List.Perm.append_left _ ?_
  refine (List.Perm.append hBperm (List.Perm.refl _)).trans ?_
  rw [← List.map_append]
  exact (List.filter_append_perm _ unseen).map alertKey


/-- First state of the C9 witness: alert `cpu`, tag `host=a`. -/
def gsWitState1 : State := { Alert := "cpu", Group := [("host", "a")] }

/-- Second state of the C9 witness: alert `mem`, tag `host=a`. -/
def gsWitState2 : State := { Alert := "mem", Group := [("host", "a")] }

/-- C9 (amended): under the well-formedness every live state satisfies (tag
keys distinct and free of `=`, alert names nonempty and free of `\x7b`) and
distinct alert keys, `GroupSets` partitions its input for every `minGroup`:
the concatenation of all groups is a permutation of the input alert keys, so
each input state's key appears in exactly one group, exactly once. -/
theorem groupSets_partition (states : List State) (minGroup : Int)
    (hwf : ∀ s ∈ states, WFState s)
    (hnd : (states.map alertKey).Nodup) :
    ((GroupSets states minGroup).flatMap Prod.snd).Perm (states.map alertKey) ∧
    (∀ s ∈ states,
      ((GroupSets states minGroup).flatMap Prod.snd).count (alertKey s) = 1) := by
  obtain ⟨hsub, hnd2, hshape, hperm⟩ := gsLoop_spec minGroup (states.length + 1) states []
    (Nat.lt_succ_self _) hwf (by simp) (by simp) (by simp)
  have hwf1 : ∀ s ∈ (gsLoop minGroup (states.length + 1) states []).1, WFState s :=
    fun s hs => hwf s (hsub.subset hs)
  have hnd1 : (((gsLoop minGroup (states.length + 1) states []).1.map alertKey)).Nodup :=
    List.Nodup.sublist (hsub.map alertKey) hnd
  have hp34 := phase34_perm (gsLoop minGroup (states.length + 1) states []).1
    (gsLoop minGroup (states.length + 1) states []).2 minGroup hwf1 hnd1 hshape
  have hmain : ((GroupSets states minGroup).flatMap Prod.snd).Perm (states.map alertKey) := by
    have hdef : GroupSets states minGroup =
        phase34 (gsLoop minGroup (states.length + 1) states []).1
          (gsLoop minGroup (states.length + 1) states []).2 minGroup := rfl
    rw [hdef]
    refine hp34.trans ?_
    simpa using hperm
  refine ⟨hmain, ?_⟩
  intro s hs
  rw [List.Perm.count_eq hmain]
  exact List.count_eq_one_of_mem hnd (List.mem_map_of_mem alertKey hs)

/-- C9 witness: the partition theorem at a concrete two-state map with
well-formed tags and `minGroup = 2`. -/
theorem groupSets_partition_witness :
    ((GroupSets [gsWitState1, gsWitState2] 2).flatMap Prod.snd).Perm
      ([gsWitState1, gsWitState2].map alertKey) ∧
    (∀ s ∈ [gsWitState1, gsWitState2],
      ((GroupSets [gsWitState1, gsWitState2] 2).flatMap Prod.snd).count (alertKey s) = 1) :=
  groupSets_partition [gsWitState1, gsWitState2] 2 (by decide) (by decide)

end Bosun
